import Mathlib

/-!
# Verification of the Bitespeed identity-reconciliation service

Shallow embedding of `src/identifyService.ts` (`identifyContact`, `buildResponse`)
over an explicit relational store.  The store is a list of contact rows kept in
insertion order (Prisma autoincrement ids, so insertion order is id order for
every state the service itself produces); `orderBy createdAt asc` is modelled as
a stable insertion sort by `createdAt`, matching the store enumerating rows in
insertion order and the ECMAScript stable `Array.prototype.sort`.

Every mutating store call (`update`, `updateMany`, `create`) is a separately
committed operation in the source (no `$transaction` is used), so the embedding
records the sequence of write operations (`StoreOp`) each call performs; the
store after any prefix of that sequence is an observable (durable) intermediate
state if a later call fails.

JavaScript truthiness on optional string fields (`if (!email ...)`,
`email ? ... : []`, `filter(Boolean)`, `if (primary.email)`) is modelled by
`truthy`: `none` and `some ""` are falsy.  The `TypeError` the source raises by
dereferencing `primaries[0]` when the candidate set has no primary is modelled
by the `inconsistentState` failure outcome (fallible code returns a sum type).
-/

namespace Bitespeed

inductive LinkPrecedence where
  | primary
  | secondary
deriving DecidableEq, Repr

/-- A row of the `Contact` table (prisma model `Contact`). -/
structure Contact where
  id : Nat
  email : Option String
  phoneNumber : Option String
  linkedId : Option Nat
  linkPrecedence : LinkPrecedence
  createdAt : Nat
  updatedAt : Nat
  deletedAt : Option Nat
deriving DecidableEq, Repr

/-- The relational store: rows in insertion order plus the autoincrement counter. -/
structure Store where
  contacts : List Contact
  nextId : Nat
deriving DecidableEq, Repr

/-- The request body `{ email?, phoneNumber? }`; `none` covers both `null` and
`undefined`, `some ""` is an explicitly supplied empty string. -/
structure Request where
  email : Option String
  phoneNumber : Option String
deriving DecidableEq, Repr

/-- The `contact` object of the response. -/
structure Response where
  primaryContactId : Nat
  emails : List String
  phoneNumbers : List String
  secondaryContactIds : List Nat
deriving DecidableEq, Repr

/-- JavaScript truthiness of an optional string: `null`/`undefined`/`""` are falsy. -/
def truthy : Option String → Bool
  | none => false
  | some s => decide (s ≠ "")

/-- One committed store write.  `demote` is the `prisma.contact.update` that sets
`linkedId`/`linkPrecedence`/`updatedAt` on one row; `relink` is the
`prisma.contact.updateMany` re-pointing every live row whose `linkedId` equals
the stale primary's id; `create` is `prisma.contact.create`. -/
inductive StoreOp where
  | demote (targetId newLinkedId t : Nat)
  | relink (oldLinkedId newLinkedId t : Nat)
  | create (c : Contact)
deriving DecidableEq, Repr

def applyDemote (targetId newLinkedId t : Nat) (c : Contact) : Contact :=
  if c.id = targetId then
    { c with linkedId := some newLinkedId, linkPrecedence := .secondary, updatedAt := t }
  else c

def applyRelink (oldLinkedId newLinkedId t : Nat) (c : Contact) : Contact :=
  if c.linkedId = some oldLinkedId ∧ c.deletedAt = none then
    { c with linkedId := some newLinkedId, updatedAt := t }
  else c

def applyOp (s : Store) : StoreOp → Store
  | .demote a b t => { s with contacts := s.contacts.map (applyDemote a b t) }
  | .relink a b t => { s with contacts := s.contacts.map (applyRelink a b t) }
  | .create c => { contacts := s.contacts ++ [c], nextId := s.nextId + 1 }

def applyOps (s : Store) (ops : List StoreOp) : Store := ops.foldl applyOp s

/-- Stable insert for the `orderBy createdAt asc` model: an element is placed
before the first element with a strictly larger-or-equal... (strictly larger or
equal `createdAt`), i.e. after every strictly smaller one, so that elements with
equal `createdAt` keep their relative (insertion) order. -/
def insOrd (c : Contact) : List Contact → List Contact
  | [] => [c]
  | d :: ds => if d.createdAt < c.createdAt then d :: insOrd c ds else c :: d :: ds

/-- Stable sort by `createdAt` (model of the store's `orderBy: { createdAt: "asc" }`
and of the stable ECMAScript `Array.prototype.sort` on timestamps). -/
def sortByCreatedAt : List Contact → List Contact
  | [] => []
  | c :: cs => insOrd c (sortByCreatedAt cs)

/-- The `where` clause of step 1: non-deleted and (email matches, if supplied
truthy) or (phone matches, if supplied truthy). -/
def MatchesReq (e p : Option String) (c : Contact) : Prop :=
  c.deletedAt = none ∧
    ((truthy e = true ∧ c.email = e) ∨ (truthy p = true ∧ c.phoneNumber = p))

instance (e p : Option String) (c : Contact) : Decidable (MatchesReq e p c) := by
  unfold MatchesReq; infer_instance

/-- Step 1: all non-deleted contacts matching the supplied identifiers,
ordered by `createdAt` ascending. -/
def findMatches (req : Request) (s : Store) : List Contact :=
  sortByCreatedAt (s.contacts.filter (fun c => decide (MatchesReq req.email req.phoneNumber c)))

/-- Step 3 root computation: a primary is its own root, a secondary's root is its
`linkedId` (`contact.linkedId!`; a missing `linkedId` contributes `null`, which
matches nothing in a SQL `IN` list, hence `filterMap`). -/
def rootOf (c : Contact) : Option Nat :=
  if c.linkPrecedence = .primary then some c.id else c.linkedId

def rootsOf (ms : List Contact) : List Nat := ms.filterMap rootOf

/-- The step-3 candidate `where` clause: non-deleted and id or linkedId among the
touched roots. -/
def InClusterRoots (roots : List Nat) (c : Contact) : Prop :=
  c.deletedAt = none ∧ (c.id ∈ roots ∨ ∃ l ∈ roots, c.linkedId = some l)

instance (roots : List Nat) (c : Contact) : Decidable (InClusterRoots roots c) := by
  unfold InClusterRoots; infer_instance

/-- Step 3: the candidate merge set — all contacts across all touched clusters,
ordered by `createdAt` ascending. -/
def candidatesOf (req : Request) (s : Store) : List Contact :=
  sortByCreatedAt (s.contacts.filter
    (fun c => decide (InClusterRoots (rootsOf (findMatches req s)) c)))

/-- Step 4: candidate primaries sorted by `createdAt` (the source re-sorts the
filtered array; the sort is stable). -/
def primariesOf (req : Request) (s : Store) : List Contact :=
  sortByCreatedAt ((candidatesOf req s).filter (fun c => decide (c.linkPrecedence = .primary)))

/-- The refresh `where` clause of step 5: non-deleted and id or linkedId equal to
the true primary's id. -/
def InClusterOf (tpId : Nat) (c : Contact) : Prop :=
  c.deletedAt = none ∧ (c.id = tpId ∨ c.linkedId = some tpId)

instance (tpId : Nat) (c : Contact) : Decidable (InClusterOf tpId c) := by
  unfold InClusterOf; infer_instance

/-- The step-5 refresh query: the full membership of the true primary's cluster. -/
def clusterContacts (tpId : Nat) (s : Store) : List Contact :=
  sortByCreatedAt (s.contacts.filter (fun c => decide (InClusterOf tpId c)))

/-- The demote-then-relink write sequence of the step-5 loop, in loop order. -/
def mergeOpsOf (tp : Contact) (others : List Contact) (now : Nat) : List StoreOp :=
  others.flatMap (fun o => [StoreOp.demote o.id tp.id now, StoreOp.relink o.id tp.id now])

/-- `existingEmails.has(email)` (membership of a truthy value in the cluster's
email set; `filter(Boolean)` only removes `null`/`""`, which a truthy value
never equals). -/
def HasEmailVal (l : List Contact) (v : Option String) : Prop := ∃ c ∈ l, c.email = v

instance (l : List Contact) (v : Option String) : Decidable (HasEmailVal l v) := by
  unfold HasEmailVal; infer_instance

def HasPhoneVal (l : List Contact) (v : Option String) : Prop := ∃ c ∈ l, c.phoneNumber = v

instance (l : List Contact) (v : Option String) : Decidable (HasPhoneVal l v) := by
  unfold HasPhoneVal; infer_instance

/-- `if (primary.email) emails.push(primary.email)` — the initial singleton (or
empty) value list of a truthy field. -/
def valsOf : Option String → List String
  | some str => if str = "" then [] else [str]
  | none => []

/-- `if (c.email && !emails.includes(c.email)) emails.push(c.email)` — push a
truthy, not-yet-present value at the end. -/
def dedupPush (acc : List String) (v : Option String) : List String :=
  match v with
  | some str => if str = "" ∨ str ∈ acc then acc else acc ++ [str]
  | none => acc

/-- `buildResponse` of the source.  `allContacts.find(...)!` is a fallible
lookup: `none` models the `TypeError` on a missing primary. -/
def buildResponse (primaryId : Nat) (allContacts : List Contact)
    (secondaryIds : List Nat) : Option Response :=
  match allContacts.find? (fun c => decide (c.id = primaryId)) with
  | none => none
  | some primary =>
    let rest := allContacts.filter (fun c => decide (c.id ≠ primaryId))
    let emails := rest.foldl (fun acc c => dedupPush acc c.email) (valsOf primary.email)
    let phoneNumbers :=
      rest.foldl (fun acc c => dedupPush acc c.phoneNumber) (valsOf primary.phoneNumber)
    some { primaryContactId := primaryId, emails := emails,
           phoneNumbers := phoneNumbers, secondaryContactIds := secondaryIds }

inductive IdentifyError where
  | invalidRequest
  | inconsistentState
  | internalError
deriving DecidableEq, Repr

/-- Result of a successful call: final store, response, and the committed write
sequence (final store = `applyOps` of the initial store and `ops`). -/
structure IdentifyResult where
  store : Store
  response : Response
  ops : List StoreOp
deriving DecidableEq, Repr

/-- Outcome of a call; a failure carries the store as left behind and the writes
committed before the failure. -/
inductive IdentifyOutcome where
  | failure (e : IdentifyError) (store : Store) (ops : List StoreOp)
  | success (r : IdentifyResult)
deriving DecidableEq, Repr

/-- The store after the step-5 demote/relink loop. -/
def postMergeStore (tp : Contact) (others : List Contact) (now : Nat) (s : Store) : Store :=
  applyOps s (mergeOpsOf tp others now)

/-- `allContacts` at step 6: the candidate set when no merge happened, otherwise
the refreshed membership of the true primary's cluster. -/
def allContactsAfterMerge (req : Request) (now : Nat) (s : Store)
    (tp : Contact) (others : List Contact) : List Contact :=
  if others.isEmpty then candidatesOf req s
  else clusterContacts tp.id (postMergeStore tp others now s)

/-- The `hasNewInfo && hasBothFields` creation condition of step 6. -/
def createCondB (req : Request) (allContacts : List Contact) : Bool :=
  (truthy req.email && !(decide (HasEmailVal allContacts req.email))
    || truthy req.phoneNumber && !(decide (HasPhoneVal allContacts req.phoneNumber)))
  && (truthy req.email && truthy req.phoneNumber)

/-- The secondary record created at step 6. -/
def newSecondary (req : Request) (now tpId freshId : Nat) : Contact :=
  { id := freshId, email := req.email, phoneNumber := req.phoneNumber,
    linkedId := some tpId, linkPrecedence := .secondary,
    createdAt := now, updatedAt := now, deletedAt := none }

/-- The `secondaryContactIds` computation of step 7. -/
def secondaryIdsOf (l : List Contact) : List Nat :=
  (l.filter (fun c => decide (c.linkPrecedence = .secondary))).map (fun c => c.id)

/-- Steps 4–7 once the guard passed, matches were found, and the candidate
primaries are `tp :: others` (source lines 100–181). -/
def finishIdentify (req : Request) (now : Nat) (s : Store)
    (tp : Contact) (others : List Contact) : IdentifyOutcome :=
  if createCondB req (allContactsAfterMerge req now s tp others) then
    match buildResponse tp.id
        (allContactsAfterMerge req now s tp others ++
          [newSecondary req now tp.id (postMergeStore tp others now s).nextId])
        (secondaryIdsOf (allContactsAfterMerge req now s tp others ++
          [newSecondary req now tp.id (postMergeStore tp others now s).nextId])) with
    | some resp =>
      .success { store := applyOp (postMergeStore tp others now s)
                   (.create (newSecondary req now tp.id (postMergeStore tp others now s).nextId)),
                 response := resp,
                 ops := mergeOpsOf tp others now ++
                   [.create (newSecondary req now tp.id (postMergeStore tp others now s).nextId)] }
    | none =>
      .failure .internalError
        (applyOp (postMergeStore tp others now s)
          (.create (newSecondary req now tp.id (postMergeStore tp others now s).nextId)))
        (mergeOpsOf tp others now ++
          [.create (newSecondary req now tp.id (postMergeStore tp others now s).nextId)])
  else
    match buildResponse tp.id (allContactsAfterMerge req now s tp others)
        (secondaryIdsOf (allContactsAfterMerge req now s tp others)) with
    | some resp =>
      .success { store := postMergeStore tp others now s, response := resp,
                 ops := mergeOpsOf tp others now }
    | none =>
      .failure .internalError (postMergeStore tp others now s) (mergeOpsOf tp others now)

/-- The fresh primary created by step 2. -/
def freshPrimary (req : Request) (now : Nat) (s : Store) : Contact :=
  { id := s.nextId, email := req.email, phoneNumber := req.phoneNumber,
    linkedId := none, linkPrecedence := .primary,
    createdAt := now, updatedAt := now, deletedAt := none }

/-- `identifyContact` of `src/identifyService.ts`.  `now` is the wall clock used
for the timestamps of this call. -/
def identifyContact (req : Request) (now : Nat) (s : Store) : IdentifyOutcome :=
  if truthy req.email || truthy req.phoneNumber then
    match findMatches req s with
    | [] =>
      match buildResponse (freshPrimary req now s).id [freshPrimary req now s] [] with
      | some resp =>
        .success { store := applyOp s (.create (freshPrimary req now s)), response := resp,
                   ops := [.create (freshPrimary req now s)] }
      | none =>
        .failure .internalError (applyOp s (.create (freshPrimary req now s)))
          [.create (freshPrimary req now s)]
    | _ :: _ =>
      match primariesOf req s with
      | [] => .failure .inconsistentState s []
      | tp :: others => finishIdentify req now s tp others
  else
    .failure .invalidRequest s []

/-- Well-formed store: distinct ids, ids below the autoincrement counter, live
primaries have no `linkedId`, and every live secondary links to some live
primary's id (the spec's forest invariants). -/
def Store.WF (s : Store) : Prop :=
  (s.contacts.map (fun c => c.id)).Nodup ∧
  (∀ c ∈ s.contacts, c.id < s.nextId) ∧
  (∀ c ∈ s.contacts, c.deletedAt = none → c.linkPrecedence = .primary → c.linkedId = none) ∧
  (∀ c ∈ s.contacts, c.deletedAt = none → c.linkPrecedence = .secondary →
    ∃ r ∈ s.contacts, c.linkedId = some r.id ∧ r.deletedAt = none ∧
      r.linkPrecedence = .primary)

instance (s : Store) : Decidable s.WF := by
  unfold Store.WF; infer_instance

/-- The response of an outcome, when the call succeeded. -/
def respOf : IdentifyOutcome → Option Response
  | .failure _ _ _ => none
  | .success r => some r.response

/-- The committed writes of an outcome. -/
def opsOf : IdentifyOutcome → List StoreOp
  | .failure _ _ ops => ops
  | .success r => r.ops

/-- The store an outcome leaves behind. -/
def storeOf : IdentifyOutcome → Store
  | .failure _ st _ => st
  | .success r => r.store

/-- Number of rows created by a write sequence. -/
def createCount (ops : List StoreOp) : Nat :=
  (ops.filter (fun op => match op with | .create _ => true | _ => false)).length

/-! ## Lemmas about the stable sort -/

theorem insOrd_perm (c : Contact) (l : List Contact) : (insOrd c l).Perm (c :: l) := by
  induction l with
  | nil => exact List.Perm.refl _
  | cons d ds ih =>
    simp only [insOrd]
    split
    · exact (ih.cons d).trans (List.Perm.swap c d ds)
    · exact List.Perm.refl _

theorem sortByCreatedAt_perm (l : List Contact) : (sortByCreatedAt l).Perm l := by
  induction l with
  | nil => exact List.Perm.refl _
  | cons c cs ih =>
    simpa only [sortByCreatedAt] using (insOrd_perm c (sortByCreatedAt cs)).trans (ih.cons c)

theorem mem_sortByCreatedAt {a : Contact} {l : List Contact} :
    a ∈ sortByCreatedAt l ↔ a ∈ l :=
  (sortByCreatedAt_perm l).mem_iff

theorem sortByCreatedAt_eq_nil {l : List Contact} : sortByCreatedAt l = [] ↔ l = [] := by
  constructor
  · intro h
    have := (sortByCreatedAt_perm l).length_eq
    rw [h] at this
    exact List.eq_nil_of_length_eq_zero this.symm
  · intro h; subst h; rfl

theorem sortByCreatedAt_nodup {l : List Contact} (h : l.Nodup) :
    (sortByCreatedAt l).Nodup :=
  ((sortByCreatedAt_perm l).nodup_iff).mpr h

/-- Inserting an element whose id exceeds every id in a lexicographically sorted
list keeps the list lexicographically sorted.  `LexLT a b` is the
(createdAt, id) lexicographic order: the stable sort of an id-increasing list is
sorted by it. -/
def LexLT (a b : Contact) : Prop :=
  a.createdAt < b.createdAt ∨ (a.createdAt = b.createdAt ∧ a.id < b.id)

theorem insOrd_sorted_le {c : Contact} {l : List Contact}
    (h : l.Pairwise (fun a b => a.createdAt ≤ b.createdAt)) :
    (insOrd c l).Pairwise (fun a b => a.createdAt ≤ b.createdAt) := by
  induction l with
  | nil => simp [insOrd]
  | cons d ds ih =>
    rcases List.pairwise_cons.mp h with ⟨hd, hds⟩
    simp only [insOrd]
    split
    · rename_i hlt
      refine List.pairwise_cons.mpr ⟨?_, ih hds⟩
      intro x hx
      rcases List.mem_cons.mp ((insOrd_perm c ds).mem_iff.mp hx) with hx | hx
      · subst hx; exact le_of_lt hlt
      · exact hd x hx
    · rename_i hge
      refine List.pairwise_cons.mpr ⟨?_, h⟩
      intro x hx
      rcases List.mem_cons.mp hx with hx | hx
      · subst hx; omega
      · exact le_trans (by omega) (hd x hx)

theorem sortByCreatedAt_sorted (l : List Contact) :
    (sortByCreatedAt l).Pairwise (fun a b => a.createdAt ≤ b.createdAt) := by
  induction l with
  | nil => simp [sortByCreatedAt]
  | cons c cs ih => exact insOrd_sorted_le ih

theorem insOrd_lex {c : Contact} {l : List Contact} (hl : l.Pairwise LexLT)
    (hid : ∀ d ∈ l, c.id < d.id) : (insOrd c l).Pairwise LexLT := by
  induction l with
  | nil => simp [insOrd]
  | cons d ds ih =>
    rcases List.pairwise_cons.mp hl with ⟨hd, hds⟩
    simp only [insOrd]
    split
    · rename_i hlt
      refine List.pairwise_cons.mpr ⟨?_, ih hds (fun x hx => hid x (List.mem_cons_of_mem d hx))⟩
      intro x hx
      rcases List.mem_cons.mp ((insOrd_perm c ds).mem_iff.mp hx) with hx | hx
      · subst hx; exact Or.inl hlt
      · exact hd x hx
    · rename_i hge
      refine List.pairwise_cons.mpr ⟨?_, hl⟩
      intro x hx
      have hcx : c.id < x.id := hid x hx
      rcases List.mem_cons.mp hx with hx | hx
      · have hcd : c.createdAt ≤ d.createdAt := by omega
        rcases Nat.lt_or_ge c.createdAt x.createdAt with h1 | h1
        · exact Or.inl h1
        · exact Or.inr ⟨by rw [hx] at h1 ⊢; omega, hcx⟩
      · have hdx := hd x hx
        have hcd : c.createdAt ≤ d.createdAt := by omega
        rcases hdx with h2 | h2
        · exact Or.inl (by omega)
        · rcases Nat.lt_or_ge c.createdAt x.createdAt with h3 | h3
          · exact Or.inl h3
          · exact Or.inr ⟨by omega, hcx⟩

theorem sortByCreatedAt_lex {l : List Contact} (h : l.Pairwise (fun a b => a.id < b.id)) :
    (sortByCreatedAt l).Pairwise LexLT := by
  induction l with
  | nil => simp [sortByCreatedAt]
  | cons c cs ih =>
    rcases List.pairwise_cons.mp h with ⟨hc, hcs⟩
    exact insOrd_lex (ih hcs) (fun d hd => hc d (mem_sortByCreatedAt.mp hd))

theorem sortByCreatedAt_eq_self {l : List Contact}
    (h : l.Pairwise (fun a b => a.createdAt ≤ b.createdAt)) : sortByCreatedAt l = l := by
  induction l with
  | nil => rfl
  | cons c cs ih =>
    rcases List.pairwise_cons.mp h with ⟨hc, hcs⟩
    simp only [sortByCreatedAt, ih hcs]
    cases cs with
    | nil => rfl
    | cons d ds =>
      simp only [insOrd]
      have : ¬ d.createdAt < c.createdAt := by
        have := hc d (List.mem_cons_self d ds); omega
      simp [this]

/-! ## Generic list helpers -/

theorem eq_of_mem_of_id_eq {l : List Contact} {a b : Contact}
    (hnd : (l.map (fun c => c.id)).Nodup) (ha : a ∈ l) (hb : b ∈ l) (h : a.id = b.id) :
    a = b := by
  induction l with
  | nil => cases ha
  | cons x xs ih =>
    simp only [List.map_cons, List.nodup_cons] at hnd
    rcases List.mem_cons.mp ha with ha' | ha' <;> rcases List.mem_cons.mp hb with hb' | hb'
    · rw [ha', hb']
    · exfalso
      refine hnd.1 ?_
      rw [ha'] at h
      rw [h]
      exact List.mem_map_of_mem (fun c => c.id) hb'
    · exfalso
      refine hnd.1 ?_
      rw [hb'] at h
      rw [← h]
      exact List.mem_map_of_mem (fun c => c.id) ha'
    · exact ih hnd.2 ha' hb'

theorem find?_id_eq {l : List Contact} {a : Contact} {pid : Nat}
    (hnd : (l.map (fun c => c.id)).Nodup) (ha : a ∈ l) (hid : a.id = pid) :
    l.find? (fun c => decide (c.id = pid)) = some a := by
  induction l with
  | nil => cases ha
  | cons b bs ih =>
    simp only [List.map_cons, List.nodup_cons] at hnd
    by_cases hb : b.id = pid
    · rw [List.find?_cons_of_pos _ (by simpa using hb)]
      rcases List.mem_cons.mp ha with ha' | ha'

      · rw [ha']
      · exfalso
        refine hnd.1 ?_
        have : a.id = b.id := by omega
        exact this ▸ List.mem_map_of_mem (fun c => c.id) ha'
    · rw [List.find?_cons_of_neg _ (by simpa using hb)]
      rcases List.mem_cons.mp ha with ha' | ha'
      · exact absurd (ha' ▸ hid) hb
      · exact ih hnd.2 ha'

theorem filter_eq_single {l : List Contact} {a : Contact} {p : Contact → Bool}
    (hnd : l.Nodup) (ha : a ∈ l) (hp : ∀ x ∈ l, p x = true ↔ x = a) :
    l.filter p = [a] := by
  induction l with
  | nil => cases ha
  | cons b bs ih =>
    rcases List.nodup_cons.mp hnd with ⟨hb, hbs⟩
    rcases List.mem_cons.mp ha with hab | hab
    · subst hab
      rw [List.filter_cons_of_pos ((hp a (List.mem_cons_self a bs)).mpr rfl)]
      have : bs.filter p = [] := by
        refine List.filter_eq_nil_iff.mpr ?_
        intro x hx hpx
        exact hb (((hp x (List.mem_cons_of_mem a hx)).mp hpx) ▸ hx)
      rw [this]
    · have hpb : ¬ p b = true := by
        intro hpb
        exact hb ((hp b (List.mem_cons_self b bs)).mp hpb ▸ hab)
      rw [List.filter_cons_of_neg hpb]
      exact ih hbs hab (fun x hx => hp x (List.mem_cons_of_mem b hx))

/-! ## Lemmas about response assembly -/

theorem mem_dedupPush {x : String} {acc : List String} {v : Option String} :
    x ∈ dedupPush acc v ↔ x ∈ acc ∨ (v = some x ∧ x ≠ "") := by
  cases v with
  | none => simp [dedupPush]
  | some str =>
    simp only [dedupPush]
    split
    · rename_i h
      constructor
      · exact Or.inl
      · rintro (hx | ⟨hv, hne⟩)
        · exact hx
        · rcases h with h | h
          · exact absurd (by rw [← Option.some_inj.mp hv, h]) hne
          · exact (Option.some_inj.mp hv) ▸ h
    · rename_i h
      push_neg at h
      simp only [List.mem_append, List.mem_singleton, Option.some_inj]
      constructor
      · rintro (hx | hx)
        · exact Or.inl hx
        · exact Or.inr ⟨hx.symm, hx ▸ h.1⟩
      · rintro (hx | ⟨hv, _⟩)
        · exact Or.inl hx
        · exact Or.inr hv.symm

theorem nodup_dedupPush {acc : List String} {v : Option String} (h : acc.Nodup) :
    (dedupPush acc v).Nodup := by
  cases v with
  | none => exact h
  | some str =>
    simp only [dedupPush]
    split
    · exact h
    · rename_i hn
      push_neg at hn
      simp [List.nodup_append, h, hn.2]

theorem mem_foldl_dedupPush {α : Type} (g : α → Option String) (l : List α)
    (acc : List String) (x : String) :
    x ∈ l.foldl (fun a c => dedupPush a (g c)) acc ↔
      x ∈ acc ∨ ∃ c ∈ l, g c = some x ∧ x ≠ "" := by
  induction l generalizing acc with
  | nil => simp
  | cons c cs ih =>
    simp only [List.foldl_cons, ih, mem_dedupPush]
    constructor
    · rintro ((hx | hx) | ⟨d, hd, hgd⟩)
      · exact Or.inl hx
      · exact Or.inr ⟨c, List.mem_cons_self c cs, hx⟩
      · exact Or.inr ⟨d, List.mem_cons_of_mem c hd, hgd⟩
    · rintro (hx | ⟨d, hd, hgd⟩)
      · exact Or.inl (Or.inl hx)
      · rcases List.mem_cons.mp hd with hd' | hd'
        · exact Or.inl (Or.inr (hd' ▸ hgd))
        · exact Or.inr ⟨d, hd', hgd⟩

theorem nodup_foldl_dedupPush {α : Type} (g : α → Option String) (l : List α)
    (acc : List String) (h : acc.Nodup) :
    (l.foldl (fun a c => dedupPush a (g c)) acc).Nodup := by
  induction l generalizing acc with
  | nil => exact h
  | cons c cs ih => exact ih _ (nodup_dedupPush h)

theorem dedupPush_none (acc : List String) : dedupPush acc none = acc := rfl

theorem dedupPush_old {acc : List String} {str : String} (h : str = "" ∨ str ∈ acc) :
    dedupPush acc (some str) = acc := by
  show (if str = "" ∨ str ∈ acc then acc else acc ++ [str]) = acc
  rw [if_pos h]

theorem dedupPush_new {acc : List String} {str : String} (h : ¬(str = "" ∨ str ∈ acc)) :
    dedupPush acc (some str) = acc ++ [str] := by
  show (if str = "" ∨ str ∈ acc then acc else acc ++ [str]) = acc ++ [str]
  rw [if_neg h]

theorem foldl_dedupPush_append {α : Type} (g : α → Option String) (l : List α)
    (acc : List String) :
    ∃ ext, l.foldl (fun a c => dedupPush a (g c)) acc = acc ++ ext := by
  induction l generalizing acc with
  | nil => exact ⟨[], by simp⟩
  | cons c cs ih =>
    simp only [List.foldl_cons]
    cases hv : g c with
    | none =>
      rw [dedupPush_none]
      exact ih acc
    | some str =>
      by_cases h : str = "" ∨ str ∈ acc
      · rw [dedupPush_old h]
        exact ih acc
      · rw [dedupPush_new h]
        rcases ih (acc ++ [str]) with ⟨ext, hext⟩
        exact ⟨str :: ext, by rw [hext, List.append_assoc]; rfl⟩

theorem mem_valsOf {x : String} {v : Option String} :
    x ∈ valsOf v ↔ v = some x ∧ x ≠ "" := by
  cases v with
  | none => simp [valsOf]
  | some str =>
    simp only [valsOf]
    split
    · rename_i h
      subst h
      simp only [List.not_mem_nil, false_iff, not_and, ne_eq, Option.some_inj]
      intro hx
      simp [← hx]
    · rename_i h
      simp only [List.mem_singleton, Option.some_inj]
      constructor
      · intro hx; exact ⟨hx.symm, hx ▸ h⟩
      · intro hx; exact hx.1.symm

theorem nodup_valsOf {v : Option String} : (valsOf v).Nodup := by
  cases v with
  | none => simp [valsOf]
  | some str => simp only [valsOf]; split <;> simp

/-- A value-bearing optional string: `null` and `""` contribute nothing
(the spec's "distinct, non-null" values; `filter(Boolean)` semantics). -/
def optVal : Option String → Option String
  | some s => if s = "" then none else some s
  | none => none

/-- First-occurrence deduplication, written from the spec's words: "each distinct
... value from the remaining members in their given order, each value appearing
at most once (first occurrence wins)".  Used to compare `buildResponse` against
the spec's description of the ordering. -/
def dedupFirst : List String → List String
  | [] => []
  | a :: l => a :: dedupFirst (l.filter (fun b => decide (b ≠ a)))
termination_by l => l.length
decreasing_by
  simp only [List.length_cons]
  have := List.length_filter_le (fun b => decide (b ≠ a)) l
  omega

theorem dedupFirst_cons (a : String) (l : List String) :
    dedupFirst (a :: l) = a :: dedupFirst (l.filter (fun b => decide (b ≠ a))) := by
  rw [dedupFirst]

theorem foldl_dedupPush_eq_dedupFirst {α : Type} (g : α → Option String) (l : List α)
    (acc : List String) :
    l.foldl (fun a c => dedupPush a (g c)) acc =
      acc ++ dedupFirst ((l.filterMap (fun c => optVal (g c))).filter (fun b => decide (b ∉ acc))) := by
  induction l generalizing acc with
  | nil => simp [dedupFirst]
  | cons c cs ih =>
    simp only [List.foldl_cons, List.filterMap_cons]
    cases hv : g c with
    | none =>
      rw [dedupPush_none]
      simpa [optVal] using ih acc
    | some str =>
      by_cases hs : str = ""
      · rw [dedupPush_old (Or.inl hs)]
        have : optVal (some str) = none := by simp [optVal, hs]
        rw [this]
        exact ih acc
      · have hov : optVal (some str) = some str := by simp [optVal, hs]
        rw [hov]
        by_cases hmem : str ∈ acc
        · rw [dedupPush_old (Or.inr hmem), List.filter_cons_of_neg (by simpa using hmem)]
          exact ih acc
        · rw [dedupPush_new (by push_neg; exact ⟨hs, hmem⟩),
              List.filter_cons_of_pos (by simpa using hmem)]
          rw [ih (acc ++ [str])]
          rw [List.append_assoc, dedupFirst_cons, List.filter_filter]
          congr 1
          rw [List.singleton_append]
          congr 2
          apply List.filter_congr
          intro x hx
          by_cases h1 : x ∈ acc <;> by_cases h2 : x = str <;>
            simp [h1, h2, List.mem_append]

theorem mem_dedupFirst {x : String} {l : List String} : x ∈ dedupFirst l ↔ x ∈ l := by
  induction l using dedupFirst.induct with
  | case1 => simp [dedupFirst]
  | case2 a l ih =>
    rw [dedupFirst]
    simp only [List.mem_cons, ih, List.mem_filter, decide_eq_true_eq]
    constructor
    · rintro (h | ⟨h, _⟩)
      · exact Or.inl h
      · exact Or.inr h
    · rintro (h | h)
      · exact Or.inl h
      · by_cases hxa : x = a
        · exact Or.inl hxa
        · exact Or.inr ⟨h, hxa⟩

theorem valsOf_eq_toList (v : Option String) : valsOf v = (optVal v).toList := by
  cases v with
  | none => rfl
  | some str =>
    simp only [valsOf, optVal]
    split <;> simp

theorem foldl_valsOf_eq_dedupFirst {α : Type} (g : α → Option String) (l : List α)
    (v : Option String) :
    l.foldl (fun a c => dedupPush a (g c)) (valsOf v) =
      dedupFirst ((optVal v).toList ++ l.filterMap (fun c => optVal (g c))) := by
  rw [foldl_dedupPush_eq_dedupFirst, valsOf_eq_toList]
  cases hv : optVal v with
  | none =>
    simp only [Option.toList_none, List.nil_append]
    congr 1
    apply List.filter_eq_self.mpr
    intro x hx
    simp
  | some w =>
    simp only [Option.toList_some, List.singleton_append, dedupFirst_cons]
    congr 2
    apply List.filter_congr
    intro x hx
    simp

theorem buildResponse_eq {primaryId : Nat} {allContacts : List Contact}
    {secondaryIds : List Nat} {primary : Contact}
    (hfind : allContacts.find? (fun c => decide (c.id = primaryId)) = some primary) :
    buildResponse primaryId allContacts secondaryIds = some {
      primaryContactId := primaryId,
      emails := (allContacts.filter (fun c => decide (c.id ≠ primaryId))).foldl
        (fun acc c => dedupPush acc c.email) (valsOf primary.email),
      phoneNumbers := (allContacts.filter (fun c => decide (c.id ≠ primaryId))).foldl
        (fun acc c => dedupPush acc c.phoneNumber) (valsOf primary.phoneNumber),
      secondaryContactIds := secondaryIds } := by
  unfold buildResponse
  rw [hfind]

theorem buildResponse_mem_emails {primaryId : Nat} {allContacts : List Contact}
    {secondaryIds : List Nat} {primary : Contact} {resp : Response}
    (hnd : (allContacts.map (fun c => c.id)).Nodup)
    (hfind : allContacts.find? (fun c => decide (c.id = primaryId)) = some primary)
    (hresp : buildResponse primaryId allContacts secondaryIds = some resp) (x : String) :
    x ∈ resp.emails ↔ x ≠ "" ∧ ∃ c ∈ allContacts, c.email = some x := by
  have hpmem : primary ∈ allContacts := List.mem_of_find?_eq_some hfind
  have hpid : primary.id = primaryId := by
    have := List.find?_some hfind
    simpa using this
  rw [buildResponse_eq hfind] at hresp
  cases hresp
  simp only [mem_foldl_dedupPush, mem_valsOf]
  constructor
  · rintro (⟨hpe, hne⟩ | ⟨c, hc, hce, hne⟩)
    · exact ⟨hne, primary, hpmem, hpe⟩
    · exact ⟨hne, c, List.mem_of_mem_filter hc, hce⟩
  · rintro ⟨hne, c, hc, hce⟩
    by_cases hcid : c.id = primaryId
    · have : c = primary := eq_of_mem_of_id_eq hnd hc hpmem (by rw [hcid, hpid])
      exact Or.inl ⟨this ▸ hce, hne⟩
    · refine Or.inr ⟨c, ?_, hce, hne⟩
      exact List.mem_filter.mpr ⟨hc, by simpa using hcid⟩

theorem buildResponse_mem_phones {primaryId : Nat} {allContacts : List Contact}
    {secondaryIds : List Nat} {primary : Contact} {resp : Response}
    (hnd : (allContacts.map (fun c => c.id)).Nodup)
    (hfind : allContacts.find? (fun c => decide (c.id = primaryId)) = some primary)
    (hresp : buildResponse primaryId allContacts secondaryIds = some resp) (x : String) :
    x ∈ resp.phoneNumbers ↔ x ≠ "" ∧ ∃ c ∈ allContacts, c.phoneNumber = some x := by
  have hpmem : primary ∈ allContacts := List.mem_of_find?_eq_some hfind
  have hpid : primary.id = primaryId := by
    have := List.find?_some hfind
    simpa using this
  rw [buildResponse_eq hfind] at hresp
  cases hresp
  simp only [mem_foldl_dedupPush, mem_valsOf]
  constructor
  · rintro (⟨hpe, hne⟩ | ⟨c, hc, hce, hne⟩)
    · exact ⟨hne, primary, hpmem, hpe⟩
    · exact ⟨hne, c, List.mem_of_mem_filter hc, hce⟩
  · rintro ⟨hne, c, hc, hce⟩
    by_cases hcid : c.id = primaryId
    · have : c = primary := eq_of_mem_of_id_eq hnd hc hpmem (by rw [hcid, hpid])
      exact Or.inl ⟨this ▸ hce, hne⟩
    · refine Or.inr ⟨c, ?_, hce, hne⟩
      exact List.mem_filter.mpr ⟨hc, by simpa using hcid⟩

theorem buildResponse_primaryContactId {primaryId : Nat} {allContacts : List Contact}
    {secondaryIds : List Nat} {resp : Response}
    (hresp : buildResponse primaryId allContacts secondaryIds = some resp) :
    resp.primaryContactId = primaryId := by
  unfold buildResponse at hresp
  cases hfind : allContacts.find? (fun c => decide (c.id = primaryId)) with
  | none => rw [hfind] at hresp; cases hresp
  | some primary => rw [hfind] at hresp; cases hresp; rfl

theorem buildResponse_secondaryIds {primaryId : Nat} {allContacts : List Contact}
    {secondaryIds : List Nat} {resp : Response}
    (hresp : buildResponse primaryId allContacts secondaryIds = some resp) :
    resp.secondaryContactIds = secondaryIds := by
  unfold buildResponse at hresp
  cases hfind : allContacts.find? (fun c => decide (c.id = primaryId)) with
  | none => rw [hfind] at hresp; cases hresp
  | some primary => rw [hfind] at hresp; cases hresp; rfl

theorem buildResponse_isSome {primaryId : Nat} {allContacts : List Contact}
    {secondaryIds : List Nat} {a : Contact}
    (hnd : (allContacts.map (fun c => c.id)).Nodup)
    (ha : a ∈ allContacts) (hid : a.id = primaryId) :
    ∃ resp, buildResponse primaryId allContacts secondaryIds = some resp :=
  ⟨_, buildResponse_eq (find?_id_eq hnd ha hid)⟩

/-! ## Lemmas about the demote/relink write sequence -/

/-- The per-row effect of one non-create write. -/
def opFn : StoreOp → Contact → Contact
  | .demote a b t => applyDemote a b t
  | .relink a b t => applyRelink a b t
  | .create _ => fun c => c

/-- The per-row effect of a write sequence. -/
def mergeFn (ops : List StoreOp) (c : Contact) : Contact :=
  ops.foldl (fun x op => opFn op x) c

def isCreateOp : StoreOp → Bool
  | .create _ => true
  | _ => false

theorem mergeFn_nil (c : Contact) : mergeFn [] c = c := rfl

theorem mergeFn_cons (op : StoreOp) (ops : List StoreOp) (c : Contact) :
    mergeFn (op :: ops) c = mergeFn ops (opFn op c) := rfl

theorem mergeFn_append (o1 o2 : List StoreOp) (c : Contact) :
    mergeFn (o1 ++ o2) c = mergeFn o2 (mergeFn o1 c) := by
  simp [mergeFn, List.foldl_append]

theorem applyOps_append (s : Store) (o1 o2 : List StoreOp) :
    applyOps s (o1 ++ o2) = applyOps (applyOps s o1) o2 := by
  simp [applyOps, List.foldl_append]

theorem applyOps_nextId_of_noCreate {ops : List StoreOp} (s : Store)
    (h : ∀ op ∈ ops, isCreateOp op = false) : (applyOps s ops).nextId = s.nextId := by
  induction ops generalizing s with
  | nil => rfl
  | cons op ops ih =>
    have hop := h op (List.mem_cons_self op ops)
    have hrest : ∀ op' ∈ ops, isCreateOp op' = false :=
      fun op' h' => h op' (List.mem_cons_of_mem op h')
    cases op with
    | demote a b t => exact ih _ hrest
    | relink a b t => exact ih _ hrest
    | create c => simp [isCreateOp] at hop

theorem applyOps_contacts_of_noCreate {ops : List StoreOp} (s : Store)
    (h : ∀ op ∈ ops, isCreateOp op = false) :
    (applyOps s ops).contacts = s.contacts.map (mergeFn ops) := by
  induction ops generalizing s with
  | nil =>
    show s.contacts = List.map (mergeFn []) s.contacts
    have h2 : List.map (mergeFn []) s.contacts = List.map (fun c => c) s.contacts :=
      List.map_congr_left (fun c _ => mergeFn_nil c)
    rw [h2, List.map_id']
  | cons op ops ih =>
    have hop := h op (List.mem_cons_self op ops)
    have hrest : ∀ op' ∈ ops, isCreateOp op' = false :=
      fun op' h' => h op' (List.mem_cons_of_mem op h')
    have hstep : (applyOp s op).contacts = s.contacts.map (opFn op) := by
      cases op with
      | demote a b t => rfl
      | relink a b t => rfl
      | create c => simp [isCreateOp] at hop
    show (applyOps (applyOp s op) ops).contacts = _
    rw [ih _ hrest, hstep, List.map_map]
    apply List.map_congr_left
    intro c _
    rfl

theorem mergeOpsOf_nil (tp : Contact) (now : Nat) : mergeOpsOf tp [] now = [] := rfl

theorem mergeOpsOf_cons (tp o : Contact) (os : List Contact) (now : Nat) :
    mergeOpsOf tp (o :: os) now =
      StoreOp.demote o.id tp.id now :: StoreOp.relink o.id tp.id now :: mergeOpsOf tp os now := by
  simp [mergeOpsOf]

theorem mergeOpsOf_noCreate {tp : Contact} {others : List Contact} {now : Nat} :
    ∀ op ∈ mergeOpsOf tp others now, isCreateOp op = false := by
  intro op hop
  simp only [mergeOpsOf, List.mem_flatMap] at hop
  rcases hop with ⟨o, _, hop⟩
  rcases List.mem_cons.mp hop with h | h
  · rw [h]; rfl
  · rcases List.mem_cons.mp h with h' | h'
    · rw [h']; rfl
    · cases h'

theorem opFn_id (op : StoreOp) (c : Contact) : (opFn op c).id = c.id := by
  cases op <;> simp only [opFn, applyDemote, applyRelink] <;> split <;> rfl

theorem opFn_email (op : StoreOp) (c : Contact) : (opFn op c).email = c.email := by
  cases op <;> simp only [opFn, applyDemote, applyRelink] <;> split <;> rfl

theorem opFn_phone (op : StoreOp) (c : Contact) : (opFn op c).phoneNumber = c.phoneNumber := by
  cases op <;> simp only [opFn, applyDemote, applyRelink] <;> split <;> rfl

theorem opFn_createdAt (op : StoreOp) (c : Contact) : (opFn op c).createdAt = c.createdAt := by
  cases op <;> simp only [opFn, applyDemote, applyRelink] <;> split <;> rfl

theorem opFn_deletedAt (op : StoreOp) (c : Contact) : (opFn op c).deletedAt = c.deletedAt := by
  cases op <;> simp only [opFn, applyDemote, applyRelink] <;> split <;> rfl

theorem mergeFn_id (ops : List StoreOp) (c : Contact) : (mergeFn ops c).id = c.id := by
  induction ops generalizing c with
  | nil => rfl
  | cons op ops ih => rw [mergeFn_cons, ih, opFn_id]

theorem mergeFn_email (ops : List StoreOp) (c : Contact) : (mergeFn ops c).email = c.email := by
  induction ops generalizing c with
  | nil => rfl
  | cons op ops ih => rw [mergeFn_cons, ih, opFn_email]

theorem mergeFn_phone (ops : List StoreOp) (c : Contact) :
    (mergeFn ops c).phoneNumber = c.phoneNumber := by
  induction ops generalizing c with
  | nil => rfl
  | cons op ops ih => rw [mergeFn_cons, ih, opFn_phone]

theorem mergeFn_createdAt (ops : List StoreOp) (c : Contact) :
    (mergeFn ops c).createdAt = c.createdAt := by
  induction ops generalizing c with
  | nil => rfl
  | cons op ops ih => rw [mergeFn_cons, ih, opFn_createdAt]

theorem mergeFn_deletedAt (ops : List StoreOp) (c : Contact) :
    (mergeFn ops c).deletedAt = c.deletedAt := by
  induction ops generalizing c with
  | nil => rfl
  | cons op ops ih => rw [mergeFn_cons, ih, opFn_deletedAt]

theorem mergeFn_untouched {tp : Contact} {now : Nat} {others : List Contact} {c : Contact}
    (h1 : ∀ o ∈ others, c.id ≠ o.id)
    (h2 : ∀ o ∈ others, ¬(c.linkedId = some o.id ∧ c.deletedAt = none)) :
    mergeFn (mergeOpsOf tp others now) c = c := by
  induction others with
  | nil => rfl
  | cons o os ih =>
    rw [mergeOpsOf_cons, mergeFn_cons, mergeFn_cons]
    have hd : opFn (StoreOp.demote o.id tp.id now) c = c := by
      simp only [opFn, applyDemote]
      rw [if_neg (h1 o (List.mem_cons_self o os))]
    have hr : opFn (StoreOp.relink o.id tp.id now) c = c := by
      simp only [opFn, applyRelink]
      rw [if_neg (h2 o (List.mem_cons_self o os))]
    rw [hd, hr]
    exact ih (fun o' h' => h1 o' (List.mem_cons_of_mem o h'))
      (fun o' h' => h2 o' (List.mem_cons_of_mem o h'))

theorem mergeFn_demoted {tp : Contact} {now : Nat} {others : List Contact} {c o : Contact}
    (ho : o ∈ others) (hc : c.id = o.id) (hl : c.linkedId = none)
    (hnd : (others.map (fun x => x.id)).Nodup) (htp : ∀ o' ∈ others, tp.id ≠ o'.id) :
    mergeFn (mergeOpsOf tp others now) c =
      { c with linkedId := some tp.id, linkPrecedence := .secondary, updatedAt := now } := by
  induction others with
  | nil => cases ho
  | cons o' os ih =>
    simp only [List.map_cons, List.nodup_cons] at hnd
    rw [mergeOpsOf_cons, mergeFn_cons, mergeFn_cons]
    by_cases hco : c.id = o'.id
    · have hd : opFn (StoreOp.demote o'.id tp.id now) c =
          { c with linkedId := some tp.id, linkPrecedence := .secondary, updatedAt := now } := by
        simp only [opFn, applyDemote]
        rw [if_pos hco]
      rw [hd]
      have hr : opFn (StoreOp.relink o'.id tp.id now)
          { c with linkedId := some tp.id, linkPrecedence := .secondary, updatedAt := now } =
          { c with linkedId := some tp.id, linkPrecedence := .secondary, updatedAt := now } := by
        simp only [opFn, applyRelink]
        rw [if_neg]
        rintro ⟨h, -⟩
        exact htp o' (List.mem_cons_self o' os) (by simpa using h)
      rw [hr]
      apply mergeFn_untouched
      · intro o'' h''
        show c.id ≠ o''.id
        intro hcid
        refine hnd.1 ?_
        rw [← hco, hcid]
        exact List.mem_map_of_mem (fun x => x.id) h''
      · intro o'' h''
        rintro ⟨h, -⟩
        simp only [Option.some_inj] at h
        exact htp o'' (List.mem_cons_of_mem o' h'') h
    · have hd : opFn (StoreOp.demote o'.id tp.id now) c = c := by
        simp only [opFn, applyDemote]
        rw [if_neg hco]
      have hr : opFn (StoreOp.relink o'.id tp.id now) c = c := by
        simp only [opFn, applyRelink]
        rw [if_neg]
        rintro ⟨h, -⟩
        rw [hl] at h
        cases h
      rw [hd, hr]
      have ho' : o ∈ os := by
        rcases List.mem_cons.mp ho with h | h
        · exact absurd (h ▸ hc) hco
        · exact h
      exact ih ho' hnd.2 (fun o'' h'' => htp o'' (List.mem_cons_of_mem o' h''))

theorem mergeFn_relinked {tp : Contact} {now : Nat} {others : List Contact} {c : Contact}
    {x : Nat} (hc : c.linkedId = some x) (hlive : c.deletedAt = none)
    (hx : ∃ o ∈ others, o.id = x)
    (hcid : ∀ o ∈ others, c.id ≠ o.id)
    (hnd : (others.map (fun y => y.id)).Nodup)
    (htp : ∀ o ∈ others, tp.id ≠ o.id) :
    mergeFn (mergeOpsOf tp others now) c =
      { c with linkedId := some tp.id, updatedAt := now } := by
  induction others with
  | nil => rcases hx with ⟨o, ho, -⟩; cases ho
  | cons o' os ih =>
    simp only [List.map_cons, List.nodup_cons] at hnd
    rw [mergeOpsOf_cons, mergeFn_cons, mergeFn_cons]
    have hd : opFn (StoreOp.demote o'.id tp.id now) c = c := by
      simp only [opFn, applyDemote]
      rw [if_neg (hcid o' (List.mem_cons_self o' os))]
    rw [hd]
    by_cases hxo : x = o'.id
    · have hr : opFn (StoreOp.relink o'.id tp.id now) c =
          { c with linkedId := some tp.id, updatedAt := now } := by
        simp only [opFn, applyRelink]
        rw [if_pos ⟨by rw [hc, hxo], hlive⟩]
      rw [hr]
      apply mergeFn_untouched
      · intro o'' h''
        exact hcid o'' (List.mem_cons_of_mem o' h'')
      · intro o'' h''
        rintro ⟨h, -⟩
        simp only [Option.some_inj] at h
        exact htp o'' (List.mem_cons_of_mem o' h'') h
    · have hr : opFn (StoreOp.relink o'.id tp.id now) c = c := by
        simp only [opFn, applyRelink]
        rw [if_neg]
        rintro ⟨h, -⟩
        rw [hc] at h
        exact hxo (by simpa using h)
      rw [hr]
      have hx' : ∃ o ∈ os, o.id = x := by
        rcases hx with ⟨o, ho, hoid⟩
        rcases List.mem_cons.mp ho with h | h
        · exact absurd (h ▸ hoid).symm hxo
        · exact ⟨o, h, hoid⟩
      exact ih hx' (fun o'' h'' => hcid o'' (List.mem_cons_of_mem o' h'')) hnd.2
        (fun o'' h'' => htp o'' (List.mem_cons_of_mem o' h''))

theorem createCount_append (o1 o2 : List StoreOp) :
    createCount (o1 ++ o2) = createCount o1 + createCount o2 := by
  simp [createCount, List.filter_append]

theorem createCount_mergeOpsOf (tp : Contact) (others : List Contact) (now : Nat) :
    createCount (mergeOpsOf tp others now) = 0 := by
  induction others with
  | nil => rfl
  | cons o os ih => rw [mergeOpsOf_cons]; simpa [createCount] using ih

/-! ## Branch equations of identifyContact -/

theorem identifyContact_guard_fail {req : Request} {now : Nat} {s : Store}
    (h : (truthy req.email || truthy req.phoneNumber) = false) :
    identifyContact req now s = .failure .invalidRequest s [] := by
  unfold identifyContact
  rw [h]
  rfl

theorem identifyContact_eq_finish {req : Request} {now : Nat} {s : Store}
    {m tp : Contact} {ms others : List Contact}
    (hg : (truthy req.email || truthy req.phoneNumber) = true)
    (hm : findMatches req s = m :: ms)
    (hp : primariesOf req s = tp :: others) :
    identifyContact req now s = finishIdentify req now s tp others := by
  unfold identifyContact
  rw [hm, hp]
  simp [hg]

theorem identifyContact_zero_primaries {req : Request} {now : Nat} {s : Store}
    {m : Contact} {ms : List Contact}
    (hg : (truthy req.email || truthy req.phoneNumber) = true)
    (hm : findMatches req s = m :: ms)
    (hp : primariesOf req s = []) :
    identifyContact req now s = .failure .inconsistentState s [] := by
  unfold identifyContact
  rw [hm, hp]
  simp [hg]

theorem identifyContact_noMatch {req : Request} {now : Nat} {s : Store}
    (hg : (truthy req.email || truthy req.phoneNumber) = true)
    (hm : findMatches req s = []) :
    identifyContact req now s = .success {
      store := applyOp s (.create (freshPrimary req now s)),
      response := { primaryContactId := s.nextId, emails := valsOf req.email,
                    phoneNumbers := valsOf req.phoneNumber, secondaryContactIds := [] },
      ops := [.create (freshPrimary req now s)] } := by
  have hfind : [freshPrimary req now s].find?
      (fun c => decide (c.id = (freshPrimary req now s).id)) = some (freshPrimary req now s) :=
    List.find?_cons_of_pos _ (by simp)
  have hrest : [freshPrimary req now s].filter
      (fun c => decide (c.id ≠ (freshPrimary req now s).id)) = [] := by
    simp
  have hb : buildResponse (freshPrimary req now s).id [freshPrimary req now s] [] =
      some { primaryContactId := s.nextId, emails := valsOf req.email,
             phoneNumbers := valsOf req.phoneNumber, secondaryContactIds := [] } := by
    rw [buildResponse_eq hfind, hrest]
    rfl
  unfold identifyContact
  rw [hm]
  simp [hg, hb]

theorem finishIdentify_ops (req : Request) (now : Nat) (s : Store) (tp : Contact)
    (others : List Contact) :
    opsOf (finishIdentify req now s tp others) =
      if createCondB req (allContactsAfterMerge req now s tp others)
      then mergeOpsOf tp others now ++
        [.create (newSecondary req now tp.id (postMergeStore tp others now s).nextId)]
      else mergeOpsOf tp others now := by
  unfold finishIdentify
  split
  · split <;> rfl
  · split <;> rfl

theorem finishIdentify_store (req : Request) (now : Nat) (s : Store) (tp : Contact)
    (others : List Contact) :
    storeOf (finishIdentify req now s tp others) =
      if createCondB req (allContactsAfterMerge req now s tp others)
      then applyOp (postMergeStore tp others now s)
        (.create (newSecondary req now tp.id (postMergeStore tp others now s).nextId))
      else postMergeStore tp others now s := by
  unfold finishIdentify
  split
  · split <;> rfl
  · split <;> rfl

theorem create_not_mem_mergeOps {c : Contact} {tp : Contact} {others : List Contact}
    {now : Nat} : StoreOp.create c ∉ mergeOpsOf tp others now := by
  intro h
  have := mergeOpsOf_noCreate _ h
  simp [isCreateOp] at this

/-! ## Claim theorems: error handling -/

/-- C8.  If neither identifier is supplied (JavaScript-falsy: `null`, `undefined`
or `""`), `identifyContact` fails with `InvalidRequest`, commits no store write,
and leaves the store unchanged, for every store; the guard runs before any store
access (source lines 45–47). -/
theorem c8_invalid_request_fail_fast (req : Request) (now : Nat) (s : Store)
    (he : truthy req.email = false) (hp : truthy req.phoneNumber = false) :
    identifyContact req now s = .failure .invalidRequest s [] :=
  identifyContact_guard_fail (by rw [he, hp]; rfl)

/-- Witness for C8 at a concrete input: an empty-string email and an absent
phone number are rejected with the store untouched. -/
theorem c8_invalid_request_fail_fast_witness :
    truthy (some "") = false ∧ truthy (none : Option String) = false ∧
      identifyContact ⟨some "", none⟩ 7 ⟨[], 1⟩ = .failure .invalidRequest ⟨[], 1⟩ [] :=
  ⟨rfl, rfl, c8_invalid_request_fail_fast ⟨some "", none⟩ 7 ⟨[], 1⟩ rfl rfl⟩

/-- C7.  If matching succeeded but the candidate merge set contains no contact
with `linkPrecedence = primary`, the call fails (the source dereferences the
undefined `primaries[0]`, modelled as the `inconsistentState` failure): the
request is fatal, no store write is committed, and the store is returned
unrepaired. -/
theorem c7_inconsistent_state (req : Request) (now : Nat) (s : Store)
    (m : Contact) (ms : List Contact)
    (hg : (truthy req.email || truthy req.phoneNumber) = true)
    (hm : findMatches req s = m :: ms)
    (hp : primariesOf req s = []) :
    identifyContact req now s = .failure .inconsistentState s [] :=
  identifyContact_zero_primaries hg hm hp

/-- Witness for C7: a store holding only a dangling secondary (its primary row
is absent) yields a candidate set with zero primaries and a fatal failure that
leaves the store unchanged. -/
theorem c7_inconsistent_state_witness :
    identifyContact ⟨some "a@x", none⟩ 3
        ⟨[⟨1, some "a@x", none, some 5, .secondary, 0, 0, none⟩], 2⟩ =
      .failure .inconsistentState ⟨[⟨1, some "a@x", none, some 5, .secondary, 0, 0, none⟩], 2⟩ [] :=
  c7_inconsistent_state ⟨some "a@x", none⟩ 3
    ⟨[⟨1, some "a@x", none, some 5, .secondary, 0, 0, none⟩], 2⟩
    ⟨1, some "a@x", none, some 5, .secondary, 0, 0, none⟩ []
    (by decide) (by decide) (by decide)

/-- C9.  Every call commits at most one `create`; the created row is a fresh
primary (`linkedId = null`) exactly on the no-match path, and a secondary linked
to the selected true primary otherwise — the two creation paths are mutually
exclusive within one call. -/
theorem c9_at_most_one_create (req : Request) (now : Nat) (s : Store) :
    createCount (opsOf (identifyContact req now s)) ≤ 1 ∧
    (∀ c, StoreOp.create c ∈ opsOf (identifyContact req now s) →
      (findMatches req s = [] → c.linkPrecedence = .primary ∧ c.linkedId = none) ∧
      (findMatches req s ≠ [] → c.linkPrecedence = .secondary ∧
        ∃ tp others, primariesOf req s = tp :: others ∧ c.linkedId = some tp.id)) := by
  cases hg : (truthy req.email || truthy req.phoneNumber) with
  | false =>
    rw [identifyContact_guard_fail hg]
    exact ⟨by simp [opsOf, createCount], by simp [opsOf]⟩
  | true =>
    cases hm : findMatches req s with
    | nil =>
      rw [identifyContact_noMatch hg hm]
      constructor
      · simp [opsOf, createCount]
      · intro c hc
        simp only [opsOf, List.mem_singleton] at hc
        have hc' : c = freshPrimary req now s := by
          cases hc
          rfl
        constructor
        · intro _
          rw [hc']
          exact ⟨rfl, rfl⟩
        · intro h
          exact absurd rfl h
    | cons m ms =>
      cases hp : primariesOf req s with
      | nil =>
        rw [identifyContact_zero_primaries hg hm hp]
        exact ⟨by simp [opsOf, createCount], by simp [opsOf]⟩
      | cons tp others =>
        rw [identifyContact_eq_finish hg hm hp, finishIdentify_ops]
        split
        · constructor
          · rw [createCount_append, createCount_mergeOpsOf]
            simp [createCount]
          · intro c hc
            rcases List.mem_append.mp hc with hc' | hc'
            · exact absurd hc' create_not_mem_mergeOps
            · have hc'' : c = newSecondary req now tp.id (postMergeStore tp others now s).nextId := by
                rcases List.mem_singleton.mp hc' with h
                cases h
                rfl
              constructor
              · intro habs
                exact absurd habs (List.cons_ne_nil m ms)
              · intro _
                rw [hc'']
                exact ⟨rfl, tp, others, rfl, rfl⟩
        · constructor
          · rw [createCount_mergeOpsOf]
            omega
          · intro c hc
            exact absurd hc create_not_mem_mergeOps

/-- Witness for C9 at a concrete input (both creation-path implications fire on
the no-match side). -/
theorem c9_at_most_one_create_witness :
    createCount (opsOf (identifyContact ⟨some "a@x", some "1"⟩ 0 ⟨[], 1⟩)) ≤ 1 ∧
    (∀ c, StoreOp.create c ∈ opsOf (identifyContact ⟨some "a@x", some "1"⟩ 0 ⟨[], 1⟩) →
      (findMatches ⟨some "a@x", some "1"⟩ ⟨[], 1⟩ = [] →
        c.linkPrecedence = .primary ∧ c.linkedId = none) ∧
      (findMatches ⟨some "a@x", some "1"⟩ ⟨[], 1⟩ ≠ [] → c.linkPrecedence = .secondary ∧
        ∃ tp others, primariesOf ⟨some "a@x", some "1"⟩ ⟨[], 1⟩ = tp :: others ∧
          c.linkedId = some tp.id)) :=
  c9_at_most_one_create ⟨some "a@x", some "1"⟩ 0 ⟨[], 1⟩

/-! ## Claim C6: atomicity of demote + relink -/

/-- C6 evaluation at the failing input.  With two primaries P1 (older) and P2,
and a secondary S linked to P2, the merging call commits the demotion of P2 and
the re-linking of S as two separate writes (`update`, then `updateMany`; the
source wraps them in no transaction).  The store after only the first committed
write — observable whenever the second store call fails — has P2 demoted
(`linkPrecedence = secondary`, `linkedId = P1.id`) while S still points at P2:
exactly the partial state the claim says must never be observable. -/
theorem c6_partial_demotion_observable :
    opsOf (identifyContact ⟨some "a@x", some "222"⟩ 10
      ⟨[⟨1, some "a@x", some "111", none, .primary, 0, 0, none⟩,
        ⟨2, some "b@x", some "222", none, .primary, 1, 1, none⟩,
        ⟨3, some "c@x", some "333", some 2, .secondary, 2, 2, none⟩], 4⟩) =
      [.demote 2 1 10, .relink 2 1 10] ∧
    (applyOps
      ⟨[⟨1, some "a@x", some "111", none, .primary, 0, 0, none⟩,
        ⟨2, some "b@x", some "222", none, .primary, 1, 1, none⟩,
        ⟨3, some "c@x", some "333", some 2, .secondary, 2, 2, none⟩], 4⟩
      [.demote 2 1 10]).contacts =
      [⟨1, some "a@x", some "111", none, .primary, 0, 0, none⟩,
       ⟨2, some "b@x", some "222", some 1, .secondary, 1, 10, none⟩,
       ⟨3, some "c@x", some "333", some 2, .secondary, 2, 2, none⟩] := by
  decide

/-! ## Claim C10: empty strings as identifiers -/

/-- C10 counterexample.  A request with an explicit empty-string email and a
fresh phone number does not behave exactly as if the email were absent: the
created primary stores `some ""` in `email` (`email ?? null` keeps the empty
string), while the absent-field request stores `none` — the two post-states
differ, though the responses coincide. -/
theorem c10_empty_string_counterexample :
    storeOf (identifyContact ⟨some "", some "123"⟩ 0 ⟨[], 1⟩) ≠
      storeOf (identifyContact ⟨none, some "123"⟩ 0 ⟨[], 1⟩) ∧
    respOf (identifyContact ⟨some "", some "123"⟩ 0 ⟨[], 1⟩) =
      respOf (identifyContact ⟨none, some "123"⟩ 0 ⟨[], 1⟩) := by
  decide

theorem valsOf_falsy {v : Option String} (h : truthy v = false) : valsOf v = [] := by
  cases v with
  | none => rfl
  | some str =>
    simp only [truthy, decide_eq_false_iff_not, ne_eq, not_not] at h
    simp [valsOf, h]

theorem findMatches_falsy_email {e1 e2 p : Option String} {s : Store}
    (h1 : truthy e1 = false) (h2 : truthy e2 = false) :
    findMatches ⟨e1, p⟩ s = findMatches ⟨e2, p⟩ s := by
  unfold findMatches
  congr 1
  apply List.filter_congr
  intro c _
  apply decide_eq_decide.mpr
  unfold MatchesReq
  simp [h1, h2]

theorem findMatches_falsy_phone {e p1 p2 : Option String} {s : Store}
    (h1 : truthy p1 = false) (h2 : truthy p2 = false) :
    findMatches ⟨e, p1⟩ s = findMatches ⟨e, p2⟩ s := by
  unfold findMatches
  congr 1
  apply List.filter_congr
  intro c _
  apply decide_eq_decide.mpr
  unfold MatchesReq
  simp [h1, h2]

theorem candidatesOf_congr {req1 req2 : Request} {s : Store}
    (h : findMatches req1 s = findMatches req2 s) :
    candidatesOf req1 s = candidatesOf req2 s := by
  unfold candidatesOf
  rw [h]

theorem primariesOf_congr {req1 req2 : Request} {s : Store}
    (h : findMatches req1 s = findMatches req2 s) :
    primariesOf req1 s = primariesOf req2 s := by
  unfold primariesOf
  rw [candidatesOf_congr h]

theorem allContactsAfterMerge_congr {req1 req2 : Request} {now : Nat} {s : Store}
    {tp : Contact} {others : List Contact}
    (h : findMatches req1 s = findMatches req2 s) :
    allContactsAfterMerge req1 now s tp others = allContactsAfterMerge req2 now s tp others := by
  unfold allContactsAfterMerge
  rw [candidatesOf_congr h]

theorem finishIdentify_congr {req1 req2 : Request} {now : Nat} {s : Store}
    {tp : Contact} {others : List Contact}
    (hall : allContactsAfterMerge req1 now s tp others = allContactsAfterMerge req2 now s tp others)
    (hc1 : createCondB req1 (allContactsAfterMerge req1 now s tp others) = false)
    (hc2 : createCondB req2 (allContactsAfterMerge req2 now s tp others) = false) :
    finishIdentify req1 now s tp others = finishIdentify req2 now s tp others := by
  unfold finishIdentify
  rw [hc1, hc2, hall]
  simp

theorem createCondB_falsy_email {e : Option String} {p : Option String}
    {allC : List Contact} (h : truthy e = false) :
    createCondB ⟨e, p⟩ allC = false := by
  simp [createCondB, h]

theorem createCondB_falsy_phone {e : Option String} {p : Option String}
    {allC : List Contact} (h : truthy p = false) :
    createCondB ⟨e, p⟩ allC = false := by
  simp [createCondB, h]

theorem identify_falsy_email_congr (now : Nat) (s : Store) (e1 e2 p : Option String)
    (h1 : truthy e1 = false) (h2 : truthy e2 = false) :
    respOf (identifyContact ⟨e1, p⟩ now s) = respOf (identifyContact ⟨e2, p⟩ now s) := by
  have hm : findMatches ⟨e1, p⟩ s = findMatches ⟨e2, p⟩ s := findMatches_falsy_email h1 h2
  cases hp' : truthy p with
  | false =>
    rw [identifyContact_guard_fail (by simp [h1, hp']),
        identifyContact_guard_fail (by simp [h2, hp'])]
  | true =>
    have hg1 : (truthy (Request.mk e1 p).email || truthy (Request.mk e1 p).phoneNumber) = true := by
      simp [h1, hp']
    have hg2 : (truthy (Request.mk e2 p).email || truthy (Request.mk e2 p).phoneNumber) = true := by
      simp [h2, hp']
    cases hmm : findMatches ⟨e1, p⟩ s with
    | nil =>
      rw [identifyContact_noMatch hg1 hmm, identifyContact_noMatch hg2 (hm ▸ hmm)]
      simp [respOf, valsOf_falsy h1, valsOf_falsy h2]
    | cons m ms =>
      have hmm2 : findMatches ⟨e2, p⟩ s = m :: ms := hm ▸ hmm
      have hpr : primariesOf ⟨e1, p⟩ s = primariesOf ⟨e2, p⟩ s := primariesOf_congr hm
      cases hpp : primariesOf ⟨e1, p⟩ s with
      | nil =>
        rw [identifyContact_zero_primaries hg1 hmm hpp,
            identifyContact_zero_primaries hg2 hmm2 (hpr ▸ hpp)]
      | cons tp others =>
        rw [identifyContact_eq_finish hg1 hmm hpp,
            identifyContact_eq_finish hg2 hmm2 (hpr ▸ hpp)]
        rw [finishIdentify_congr (allContactsAfterMerge_congr hm)
          (createCondB_falsy_email h1) (createCondB_falsy_email h2)]

theorem identify_falsy_phone_congr (now : Nat) (s : Store) (e p1 p2 : Option String)
    (h1 : truthy p1 = false) (h2 : truthy p2 = false) :
    respOf (identifyContact ⟨e, p1⟩ now s) = respOf (identifyContact ⟨e, p2⟩ now s) := by
  have hm : findMatches ⟨e, p1⟩ s = findMatches ⟨e, p2⟩ s := findMatches_falsy_phone h1 h2
  cases hp' : truthy e with
  | false =>
    rw [identifyContact_guard_fail (by simp [h1, hp']),
        identifyContact_guard_fail (by simp [h2, hp'])]
  | true =>
    have hg1 : (truthy (Request.mk e p1).email || truthy (Request.mk e p1).phoneNumber) = true := by
      simp [hp']
    have hg2 : (truthy (Request.mk e p2).email || truthy (Request.mk e p2).phoneNumber) = true := by
      simp [hp']
    cases hmm : findMatches ⟨e, p1⟩ s with
    | nil =>
      rw [identifyContact_noMatch hg1 hmm, identifyContact_noMatch hg2 (hm ▸ hmm)]
      simp [respOf, valsOf_falsy h1, valsOf_falsy h2]
    | cons m ms =>
      have hmm2 : findMatches ⟨e, p2⟩ s = m :: ms := hm ▸ hmm
      have hpr : primariesOf ⟨e, p1⟩ s = primariesOf ⟨e, p2⟩ s := primariesOf_congr hm
      cases hpp : primariesOf ⟨e, p1⟩ s with
      | nil =>
        rw [identifyContact_zero_primaries hg1 hmm hpp,
            identifyContact_zero_primaries hg2 hmm2 (hpr ▸ hpp)]
      | cons tp others =>
        rw [identifyContact_eq_finish hg1 hmm hpp,
            identifyContact_eq_finish hg2 hmm2 (hpr ▸ hpp)]
        rw [finishIdentify_congr (allContactsAfterMerge_congr hm)
          (createCondB_falsy_phone h1) (createCondB_falsy_phone h2)]

/-- C10 amended.  An empty-string field is never used as a matching predicate
(matching is identical to the absent-field request, so `""` never matches any
stored record), never counted as new information, and the response is identical
to the absent-field request; a request with both fields empty (or absent) is
rejected as `InvalidRequest`.  Only the stored field of a freshly created
primary differs (`""` instead of `null`), as the counterexample shows. -/
theorem c10_empty_string_never_identifier (now : Nat) (s : Store)
    (e p : Option String) (he : truthy e = false) (hp : truthy p = false) :
    findMatches ⟨some "", p⟩ s = findMatches ⟨none, p⟩ s ∧
    findMatches ⟨e, some ""⟩ s = findMatches ⟨e, none⟩ s ∧
    respOf (identifyContact ⟨some "", p⟩ now s) = respOf (identifyContact ⟨none, p⟩ now s) ∧
    respOf (identifyContact ⟨e, some ""⟩ now s) = respOf (identifyContact ⟨e, none⟩ now s) ∧
    identifyContact ⟨some "", some ""⟩ now s = .failure .invalidRequest s [] ∧
    identifyContact ⟨e, p⟩ now s = .failure .invalidRequest s [] :=
  ⟨findMatches_falsy_email rfl rfl, findMatches_falsy_phone rfl rfl,
   identify_falsy_email_congr now s (some "") none p rfl rfl,
   identify_falsy_phone_congr now s e (some "") none rfl rfl,
   identifyContact_guard_fail rfl,
   identifyContact_guard_fail (by simp [he, hp])⟩

/-- Witness for the amended C10 at a concrete input. -/
theorem c10_empty_string_never_identifier_witness :
    truthy (none : Option String) = false ∧
    (findMatches ⟨some "", none⟩ ⟨[], 1⟩ = findMatches ⟨none, none⟩ ⟨[], 1⟩ ∧
     findMatches ⟨(none : Option String), some ""⟩ ⟨[], 1⟩ =
       findMatches ⟨(none : Option String), none⟩ ⟨[], 1⟩ ∧
     respOf (identifyContact ⟨some "", none⟩ 0 ⟨[], 1⟩) =
       respOf (identifyContact ⟨none, none⟩ 0 ⟨[], 1⟩) ∧
     respOf (identifyContact ⟨(none : Option String), some ""⟩ 0 ⟨[], 1⟩) =
       respOf (identifyContact ⟨(none : Option String), none⟩ 0 ⟨[], 1⟩) ∧
     identifyContact ⟨some "", some ""⟩ 0 ⟨[], 1⟩ = .failure .invalidRequest ⟨[], 1⟩ [] ∧
     identifyContact ⟨(none : Option String), (none : Option String)⟩ 0 ⟨[], 1⟩ =
       .failure .invalidRequest ⟨[], 1⟩ []) :=
  ⟨rfl, c10_empty_string_never_identifier 0 ⟨[], 1⟩ none none rfl rfl⟩

/-! ## Claim C5: response deduplication and ordering -/

theorem filterMap_cons_toList {α β : Type} (f : α → Option β) (a : α) (l : List α) :
    (a :: l).filterMap f = (f a).toList ++ l.filterMap f := by
  cases h : f a <;> simp [List.filterMap_cons, h]

/-- C5.  Every response assembled by `buildResponse` has duplicate-free
`emails`/`phoneNumbers` containing no nulls (and no empty strings); each list is
exactly the first-occurrence deduplication of the primary's value followed by
the remaining members' values in member order; in particular the primary's
non-null email (resp. phone) is the first element when present. -/
theorem c5_response_dedup (primaryId : Nat) (allContacts : List Contact)
    (secondaryIds : List Nat) (primary : Contact) (resp : Response)
    (hfind : allContacts.find? (fun c => decide (c.id = primaryId)) = some primary)
    (hresp : buildResponse primaryId allContacts secondaryIds = some resp) :
    resp.emails.Nodup ∧ resp.phoneNumbers.Nodup ∧
    "" ∉ resp.emails ∧ "" ∉ resp.phoneNumbers ∧
    resp.emails = dedupFirst
      ((primary :: allContacts.filter (fun c => decide (c.id ≠ primaryId))).filterMap
        (fun c => optVal c.email)) ∧
    resp.phoneNumbers = dedupFirst
      ((primary :: allContacts.filter (fun c => decide (c.id ≠ primaryId))).filterMap
        (fun c => optVal c.phoneNumber)) ∧
    (∀ v, primary.email = some v → v ≠ "" → resp.emails.head? = some v) ∧
    (∀ v, primary.phoneNumber = some v → v ≠ "" → resp.phoneNumbers.head? = some v) := by
  rw [buildResponse_eq hfind] at hresp
  cases hresp
  refine ⟨?_, ?_, ?_, ?_, ?_, ?_, ?_, ?_⟩
  · exact nodup_foldl_dedupPush _ _ _ nodup_valsOf
  · exact nodup_foldl_dedupPush _ _ _ nodup_valsOf
  · rw [mem_foldl_dedupPush, mem_valsOf]
    simp
  · rw [mem_foldl_dedupPush, mem_valsOf]
    simp
  · show (List.filter _ allContacts).foldl (fun acc c => dedupPush acc c.email)
        (valsOf primary.email) = _
    rw [foldl_valsOf_eq_dedupFirst, filterMap_cons_toList]
  · show (List.filter _ allContacts).foldl (fun acc c => dedupPush acc c.phoneNumber)
        (valsOf primary.phoneNumber) = _
    rw [foldl_valsOf_eq_dedupFirst, filterMap_cons_toList]
  · intro v hv hne
    show ((List.filter _ allContacts).foldl (fun acc c => dedupPush acc c.email)
        (valsOf primary.email)).head? = some v
    rcases foldl_dedupPush_append (fun c => c.email)
      (allContacts.filter (fun c => decide (c.id ≠ primaryId))) (valsOf primary.email) with
      ⟨ext, hext⟩
    rw [hext, hv]
    simp only [valsOf]
    rw [if_neg hne]
    rfl
  · intro v hv hne
    show ((List.filter _ allContacts).foldl (fun acc c => dedupPush acc c.phoneNumber)
        (valsOf primary.phoneNumber)).head? = some v
    rcases foldl_dedupPush_append (fun c => c.phoneNumber)
      (allContacts.filter (fun c => decide (c.id ≠ primaryId))) (valsOf primary.phoneNumber) with
      ⟨ext, hext⟩
    rw [hext, hv]
    simp only [valsOf]
    rw [if_neg hne]
    rfl

/-- Witness for C5 at a concrete input: two members sharing a phone number and
distinct emails. -/
theorem c5_response_dedup_witness :
    [(⟨1, some "a@x", some "111", none, .primary, 0, 0, none⟩ : Contact),
     ⟨2, some "b@x", some "111", some 1, .secondary, 1, 1, none⟩].find?
        (fun c => decide (c.id = 1)) =
      some ⟨1, some "a@x", some "111", none, .primary, 0, 0, none⟩ ∧
    (∃ resp, buildResponse 1
      [⟨1, some "a@x", some "111", none, .primary, 0, 0, none⟩,
       ⟨2, some "b@x", some "111", some 1, .secondary, 1, 1, none⟩] [2] = some resp ∧
      resp.emails.Nodup ∧ resp.phoneNumbers.Nodup ∧
      resp.emails = ["a@x", "b@x"] ∧ resp.phoneNumbers = ["111"] ∧
      resp.emails.head? = some "a@x") := by
  constructor
  · decide
  · refine ⟨{ primaryContactId := 1, emails := ["a@x", "b@x"], phoneNumbers := ["111"],
              secondaryContactIds := [2] }, by decide, ?_, ?_, rfl, rfl, rfl⟩
    · have h := c5_response_dedup 1
        [⟨1, some "a@x", some "111", none, .primary, 0, 0, none⟩,
         ⟨2, some "b@x", some "111", some 1, .secondary, 1, 1, none⟩] [2]
        ⟨1, some "a@x", some "111", none, .primary, 0, 0, none⟩
        { primaryContactId := 1, emails := ["a@x", "b@x"], phoneNumbers := ["111"],
          secondaryContactIds := [2] } (by decide) (by decide)
      exact h.1
    · have h := c5_response_dedup 1
        [⟨1, some "a@x", some "111", none, .primary, 0, 0, none⟩,
         ⟨2, some "b@x", some "111", some 1, .secondary, 1, 1, none⟩] [2]
        ⟨1, some "a@x", some "111", none, .primary, 0, 0, none⟩
        { primaryContactId := 1, emails := ["a@x", "b@x"], phoneNumbers := ["111"],
          secondaryContactIds := [2] } (by decide) (by decide)
      exact h.2.1

/-! ## Claim C4: deterministic tie-break -/

theorem lexLT_createdAt_le {a b : Contact} (h : LexLT a b) : a.createdAt ≤ b.createdAt := by
  rcases h with h | ⟨h, -⟩ <;> omega

theorem primariesOf_lex {req : Request} {s : Store}
    (hsort : s.contacts.Pairwise (fun a b => a.id < b.id)) :
    (primariesOf req s).Pairwise LexLT := by
  have hcand : (candidatesOf req s).Pairwise LexLT := sortByCreatedAt_lex (hsort.filter _)
  have hfil : ((candidatesOf req s).filter
      (fun c => decide (c.linkPrecedence = .primary))).Pairwise LexLT := hcand.filter _
  unfold primariesOf
  rw [sortByCreatedAt_eq_self (hfil.imp lexLT_createdAt_le)]
  exact hfil

theorem primariesOf_of_noMatch {req : Request} {s : Store}
    (hm : findMatches req s = []) : primariesOf req s = [] := by
  unfold primariesOf candidatesOf
  rw [hm]
  have hnil : s.contacts.filter (fun c => decide (InClusterRoots (rootsOf []) c)) = [] := by
    apply List.filter_eq_nil_iff.mpr
    intro c _
    simp [InClusterRoots, rootsOf]
  rw [hnil]
  rfl

theorem finishIdentify_primaryId {req : Request} {now : Nat} {s : Store}
    {tp : Contact} {others : List Contact} {r : IdentifyResult}
    (h : finishIdentify req now s tp others = .success r) :
    r.response.primaryContactId = tp.id := by
  unfold finishIdentify at h
  split at h
  · split at h
    · rename_i resp hb
      cases h
      exact buildResponse_primaryContactId hb
    · cases h
  · split at h
    · rename_i resp hb
      cases h
      exact buildResponse_primaryContactId hb
    · cases h

/-- C4.  On a store whose rows are in ascending-id (insertion) order, the true
primary selected by `identifyContact` — the head of the `createdAt`-stable-sorted
candidate primaries — has minimal `createdAt`, and among the candidate primaries
sharing that earliest `createdAt` it is the one with the smallest id; the
response's `primaryContactId` is its id.  The selection is a pure function of
the store and inputs, hence identical on every run. -/
theorem c4_deterministic_tiebreak (req : Request) (now : Nat) (s : Store)
    (tp : Contact) (others : List Contact)
    (hsort : s.contacts.Pairwise (fun a b => a.id < b.id))
    (hp : primariesOf req s = tp :: others) :
    tp ∈ primariesOf req s ∧
    (∀ q ∈ primariesOf req s, tp.createdAt ≤ q.createdAt) ∧
    (∀ q ∈ primariesOf req s, q.createdAt = tp.createdAt → tp.id ≤ q.id) ∧
    (∀ r, identifyContact req now s = .success r → r.response.primaryContactId = tp.id) := by
  have hlex : (primariesOf req s).Pairwise LexLT := primariesOf_lex hsort
  rw [hp] at hlex
  rcases List.pairwise_cons.mp hlex with ⟨htp, -⟩
  refine ⟨by rw [hp]; exact List.mem_cons_self tp others, ?_, ?_, ?_⟩
  · intro q hq
    rw [hp] at hq
    rcases List.mem_cons.mp hq with h | h
    · rw [h]
    · exact lexLT_createdAt_le (htp q h)
  · intro q hq heq
    rw [hp] at hq
    rcases List.mem_cons.mp hq with h | h
    · rw [h]
    · rcases htp q h with h' | ⟨-, h'⟩
      · omega
      · omega
  · intro r hr
    cases hg : (truthy req.email || truthy req.phoneNumber) with
    | false =>
      rw [identifyContact_guard_fail hg] at hr
      cases hr
    | true =>
      cases hm : findMatches req s with
      | nil =>
        rw [primariesOf_of_noMatch hm] at hp
        cases hp
      | cons m ms =>
        rw [identifyContact_eq_finish hg hm hp] at hr
        exact finishIdentify_primaryId hr

/-- Witness for C4: two candidate primaries with equal `createdAt`; the one with
the smaller id (id 1) wins and is returned as `primaryContactId`. -/
theorem c4_deterministic_tiebreak_witness :
    ([(⟨1, some "a@x", some "111", none, .primary, 5, 0, none⟩ : Contact),
      ⟨2, some "b@x", some "222", none, .primary, 5, 0, none⟩] :
        List Contact).Pairwise (fun a b => a.id < b.id) ∧
    primariesOf ⟨some "a@x", some "222"⟩
        ⟨[⟨1, some "a@x", some "111", none, .primary, 5, 0, none⟩,
          ⟨2, some "b@x", some "222", none, .primary, 5, 0, none⟩], 3⟩ =
      [⟨1, some "a@x", some "111", none, .primary, 5, 0, none⟩,
       ⟨2, some "b@x", some "222", none, .primary, 5, 0, none⟩] ∧
    (∀ q ∈ primariesOf ⟨some "a@x", some "222"⟩
        ⟨[⟨1, some "a@x", some "111", none, .primary, 5, 0, none⟩,
          ⟨2, some "b@x", some "222", none, .primary, 5, 0, none⟩], 3⟩,
      q.createdAt = (⟨1, some "a@x", some "111", none, .primary, 5, 0, none⟩ : Contact).createdAt →
        (⟨1, some "a@x", some "111", none, .primary, 5, 0, none⟩ : Contact).id ≤ q.id) ∧
    (∀ r, identifyContact ⟨some "a@x", some "222"⟩ 9
        ⟨[⟨1, some "a@x", some "111", none, .primary, 5, 0, none⟩,
          ⟨2, some "b@x", some "222", none, .primary, 5, 0, none⟩], 3⟩ = .success r →
      r.response.primaryContactId = 1) := by
  have h := c4_deterministic_tiebreak ⟨some "a@x", some "222"⟩ 9
    ⟨[⟨1, some "a@x", some "111", none, .primary, 5, 0, none⟩,
      ⟨2, some "b@x", some "222", none, .primary, 5, 0, none⟩], 3⟩
    ⟨1, some "a@x", some "111", none, .primary, 5, 0, none⟩
    [⟨2, some "b@x", some "222", none, .primary, 5, 0, none⟩]
    (by decide) (by decide)
  exact ⟨by decide, by decide, h.2.2.1, h.2.2.2⟩

/-! ## Claim C3: secondary-creation condition -/

theorem createCondB_iff {req : Request} {allC : List Contact} :
    createCondB req allC = true ↔
      (((truthy req.email = true ∧ ¬HasEmailVal allC req.email) ∨
        (truthy req.phoneNumber = true ∧ ¬HasPhoneVal allC req.phoneNumber)) ∧
       (truthy req.email = true ∧ truthy req.phoneNumber = true)) := by
  unfold createCondB
  simp [Bool.and_eq_true, Bool.or_eq_true]

/-- C3.  When matches exist (and the candidate set has a primary, so the call
does not crash), a new contact row is created iff (the supplied email is absent
from the post-merge cluster's email set, or the supplied phone is absent from
its phone set) and both fields were supplied (truthy); the created row carries
exactly the given values, `linkedId = truePrimary.id` and
`linkPrecedence = secondary`. -/
theorem c3_secondary_creation (req : Request) (now : Nat) (s : Store)
    (m tp : Contact) (ms others : List Contact)
    (hg : (truthy req.email || truthy req.phoneNumber) = true)
    (hm : findMatches req s = m :: ms)
    (hp : primariesOf req s = tp :: others) :
    ((∃ c, StoreOp.create c ∈ opsOf (identifyContact req now s)) ↔
      (((truthy req.email = true ∧
          ¬HasEmailVal (allContactsAfterMerge req now s tp others) req.email) ∨
        (truthy req.phoneNumber = true ∧
          ¬HasPhoneVal (allContactsAfterMerge req now s tp others) req.phoneNumber)) ∧
       (truthy req.email = true ∧ truthy req.phoneNumber = true))) ∧
    (∀ c, StoreOp.create c ∈ opsOf (identifyContact req now s) →
      c.email = req.email ∧ c.phoneNumber = req.phoneNumber ∧
      c.linkedId = some tp.id ∧ c.linkPrecedence = .secondary) := by
  rw [identifyContact_eq_finish hg hm hp, finishIdentify_ops]
  cases hc : createCondB req (allContactsAfterMerge req now s tp others) with
  | true =>
    constructor
    · constructor
      · intro _
        exact createCondB_iff.mp hc
      · intro _
        exact ⟨newSecondary req now tp.id (postMergeStore tp others now s).nextId,
          List.mem_append_right _ (List.mem_singleton.mpr rfl)⟩
    · intro c hcmem
      rcases List.mem_append.mp hcmem with h | h
      · exact absurd h create_not_mem_mergeOps
      · have : StoreOp.create c =
            StoreOp.create (newSecondary req now tp.id (postMergeStore tp others now s).nextId) :=
          List.mem_singleton.mp h
        cases this
        exact ⟨rfl, rfl, rfl, rfl⟩
  | false =>
    constructor
    · constructor
      · rintro ⟨c, hcmem⟩
        exact absurd hcmem create_not_mem_mergeOps
      · intro hcond
        exact absurd (createCondB_iff.mpr hcond) (by rw [hc]; simp)
    · intro c hcmem
      exact absurd hcmem create_not_mem_mergeOps

/-- Witness for C3: a request pairing a new email with a known phone creates
exactly the expected secondary. -/
theorem c3_secondary_creation_witness :
    (truthy (some "b@x") || truthy (some "111")) = true ∧
    ((∃ c, StoreOp.create c ∈ opsOf (identifyContact ⟨some "b@x", some "111"⟩ 4
        ⟨[⟨1, some "a@x", some "111", none, .primary, 0, 0, none⟩], 2⟩)) ∧
     (∀ c, StoreOp.create c ∈ opsOf (identifyContact ⟨some "b@x", some "111"⟩ 4
        ⟨[⟨1, some "a@x", some "111", none, .primary, 0, 0, none⟩], 2⟩) →
       c.email = some "b@x" ∧ c.phoneNumber = some "111" ∧
       c.linkedId = some 1 ∧ c.linkPrecedence = .secondary)) := by
  have h := c3_secondary_creation ⟨some "b@x", some "111"⟩ 4
    ⟨[⟨1, some "a@x", some "111", none, .primary, 0, 0, none⟩], 2⟩
    ⟨1, some "a@x", some "111", none, .primary, 0, 0, none⟩
    ⟨1, some "a@x", some "111", none, .primary, 0, 0, none⟩ [] []
    (by decide) (by decide) (by decide)
  refine ⟨by decide, h.1.mpr ?_, h.2⟩
  exact ⟨Or.inl ⟨rfl, by decide⟩, rfl, rfl⟩

/-! ## Membership lemmas for the pipeline stages -/

theorem mem_findMatches {req : Request} {s : Store} {c : Contact} :
    c ∈ findMatches req s ↔ c ∈ s.contacts ∧ MatchesReq req.email req.phoneNumber c := by
  unfold findMatches
  rw [mem_sortByCreatedAt, List.mem_filter, decide_eq_true_eq]

theorem mem_candidatesOf {req : Request} {s : Store} {c : Contact} :
    c ∈ candidatesOf req s ↔
      c ∈ s.contacts ∧ InClusterRoots (rootsOf (findMatches req s)) c := by
  unfold candidatesOf
  rw [mem_sortByCreatedAt, List.mem_filter, decide_eq_true_eq]

theorem mem_primariesOf {req : Request} {s : Store} {c : Contact} :
    c ∈ primariesOf req s ↔ c ∈ candidatesOf req s ∧ c.linkPrecedence = .primary := by
  unfold primariesOf
  rw [mem_sortByCreatedAt, List.mem_filter, decide_eq_true_eq]

theorem mem_clusterContacts {tpId : Nat} {s : Store} {c : Contact} :
    c ∈ clusterContacts tpId s ↔ c ∈ s.contacts ∧ InClusterOf tpId c := by
  unfold clusterContacts
  rw [mem_sortByCreatedAt, List.mem_filter, decide_eq_true_eq]

theorem contacts_nodup {s : Store} (hWF : s.WF) : s.contacts.Nodup :=
  List.Nodup.of_map _ hWF.1

theorem nodup_map_id_of_sub {s : Store} {l : List Contact} (hWF : s.WF)
    (hnd : l.Nodup) (hsub : ∀ x ∈ l, x ∈ s.contacts) :
    (l.map (fun c => c.id)).Nodup :=
  List.Nodup.map_on
    (fun x hx y hy hxy => eq_of_mem_of_id_eq hWF.1 (hsub x hx) (hsub y hy) hxy) hnd

theorem candidatesOf_nodup {req : Request} {s : Store} (hWF : s.WF) :
    (candidatesOf req s).Nodup := by
  unfold candidatesOf
  exact sortByCreatedAt_nodup ((contacts_nodup hWF).filter _)

theorem primariesOf_nodup {req : Request} {s : Store} (hWF : s.WF) :
    (primariesOf req s).Nodup := by
  unfold primariesOf
  exact sortByCreatedAt_nodup ((candidatesOf_nodup hWF).filter _)

/-- Every root id of a match is the id of some candidate primary (needs the
store's link-integrity invariant). -/
theorem root_covered {req : Request} {s : Store} (hWF : s.WF) :
    ∀ rt ∈ rootsOf (findMatches req s), ∃ R ∈ primariesOf req s, R.id = rt := by
  intro rt hrt
  unfold rootsOf at hrt
  rcases List.mem_filterMap.mp hrt with ⟨m, hm, hroot⟩
  have hm' := mem_findMatches.mp hm
  have hmlive : m.deletedAt = none := hm'.2.1
  cases hprec : m.linkPrecedence with
  | primary =>
    have hr : rt = m.id := by
      unfold rootOf at hroot
      rw [if_pos hprec] at hroot
      exact (Option.some_inj.mp hroot).symm
    refine ⟨m, ?_, hr.symm⟩
    rw [mem_primariesOf, mem_candidatesOf]
    refine ⟨⟨hm'.1, hmlive, Or.inl ?_⟩, hprec⟩
    rw [← hr]
    exact hrt
  | secondary =>
    rcases hWF.2.2.2 m hm'.1 hmlive hprec with ⟨R, hR, hlink, hRlive, hRprec⟩
    have hr : rt = R.id := by
      unfold rootOf at hroot
      rw [if_neg (by rw [hprec]; intro h; cases h)] at hroot
      rw [hroot] at hlink
      exact Option.some_inj.mp hlink
    refine ⟨R, ?_, hr.symm⟩
    rw [mem_primariesOf, mem_candidatesOf]
    refine ⟨⟨hR, hRlive, Or.inl ?_⟩, hRprec⟩
    rw [← hr]
    exact hrt

/-- Basic facts about the selected primary and the stale primaries. -/
theorem primariesOf_facts {req : Request} {s : Store} {tp : Contact}
    {others : List Contact} (hWF : s.WF) (hp : primariesOf req s = tp :: others) :
    tp ∈ s.contacts ∧ tp.deletedAt = none ∧ tp.linkPrecedence = .primary ∧
    tp.linkedId = none ∧
    (∀ o ∈ others, o ∈ s.contacts ∧ o.deletedAt = none ∧
      o.linkPrecedence = .primary ∧ o.linkedId = none) ∧
    ((others.map (fun c => c.id)).Nodup) ∧
    (∀ o ∈ others, tp.id ≠ o.id) := by
  have hmem : ∀ x ∈ primariesOf req s,
      x ∈ s.contacts ∧ x.deletedAt = none ∧ x.linkPrecedence = .primary ∧
        x.linkedId = none := by
    intro x hx
    rcases mem_primariesOf.mp hx with ⟨hcand, hprec⟩
    rcases mem_candidatesOf.mp hcand with ⟨hxs, hlive, -⟩
    exact ⟨hxs, hlive, hprec, hWF.2.2.1 x hxs hlive hprec⟩
  have hnd : (primariesOf req s).Nodup := primariesOf_nodup hWF
  rw [hp] at hnd hmem
  rcases List.nodup_cons.mp hnd with ⟨htpno, hond⟩
  have htp := hmem tp (List.mem_cons_self tp others)
  refine ⟨htp.1, htp.2.1, htp.2.2.1, htp.2.2.2, ?_, ?_, ?_⟩
  · intro o ho
    exact hmem o (List.mem_cons_of_mem tp ho)
  · refine nodup_map_id_of_sub hWF hond ?_
    intro o ho
    exact (hmem o (List.mem_cons_of_mem tp ho)).1
  · intro o ho heq
    have : tp = o := eq_of_mem_of_id_eq hWF.1 htp.1
      (hmem o (List.mem_cons_of_mem tp ho)).1 heq
    exact htpno (this ▸ ho)

/-! ## Shape of the post-call store -/

theorem postMergeStore_contacts (tp : Contact) (others : List Contact) (now : Nat)
    (s : Store) :
    (postMergeStore tp others now s).contacts =
      s.contacts.map (mergeFn (mergeOpsOf tp others now)) :=
  applyOps_contacts_of_noCreate s mergeOpsOf_noCreate

theorem postMergeStore_nextId (tp : Contact) (others : List Contact) (now : Nat)
    (s : Store) : (postMergeStore tp others now s).nextId = s.nextId :=
  applyOps_nextId_of_noCreate s mergeOpsOf_noCreate

theorem identify_store_shape {req : Request} {now : Nat} {s : Store}
    {m tp : Contact} {ms others : List Contact}
    (hg : (truthy req.email || truthy req.phoneNumber) = true)
    (hm : findMatches req s = m :: ms)
    (hp : primariesOf req s = tp :: others) :
    ∃ tail, (storeOf (identifyContact req now s)).contacts =
      s.contacts.map (mergeFn (mergeOpsOf tp others now)) ++ tail ∧
      (tail = [] ∨ tail = [newSecondary req now tp.id s.nextId]) := by
  rw [identifyContact_eq_finish hg hm hp, finishIdentify_store]
  cases hc : createCondB req (allContactsAfterMerge req now s tp others) with
  | false =>
    refine ⟨[], ?_, Or.inl rfl⟩
    rw [List.append_nil]
    exact postMergeStore_contacts tp others now s
  | true =>
    refine ⟨[newSecondary req now tp.id s.nextId], ?_, Or.inr rfl⟩
    show (postMergeStore tp others now s).contacts ++
        [newSecondary req now tp.id (postMergeStore tp others now s).nextId] = _
    rw [postMergeStore_contacts, postMergeStore_nextId]

/-! ## Claim C2: forest invariant preserved by merge -/

/-- C2.  For a well-formed store, whenever the candidate set spans more than one
primary, the selected true primary has the earliest `createdAt` among candidate
primaries and stays primary in the post-call store; every stale primary is
demoted to a secondary linked directly to it; every live contact that pointed at
a stale primary is re-linked directly to it; and the resulting cluster is a
one-level tree — any row carrying the true primary's id is primary, and every
secondary of the cluster links directly to it. -/
theorem c2_forest_merge (req : Request) (now : Nat) (s : Store)
    (m tp : Contact) (ms others : List Contact)
    (hWF : s.WF)
    (hg : (truthy req.email || truthy req.phoneNumber) = true)
    (hm : findMatches req s = m :: ms)
    (hp : primariesOf req s = tp :: others)
    (hne : others ≠ []) :
    (∀ q ∈ primariesOf req s, tp.createdAt ≤ q.createdAt) ∧
    tp ∈ (storeOf (identifyContact req now s)).contacts ∧
    tp.linkPrecedence = .primary ∧
    (∀ o ∈ others,
      ({ o with linkedId := some tp.id, linkPrecedence := .secondary, updatedAt := now } : Contact) ∈ (storeOf (identifyContact req now s)).contacts) ∧
    (∀ c ∈ s.contacts, c.deletedAt = none → (∃ o ∈ others, c.linkedId = some o.id) →
      ({ c with linkedId := some tp.id, updatedAt := now } : Contact) ∈
        (storeOf (identifyContact req now s)).contacts) ∧
    (∀ d ∈ (storeOf (identifyContact req now s)).contacts, d.id = tp.id →
      d.linkPrecedence = .primary) ∧
    (∀ c ∈ (storeOf (identifyContact req now s)).contacts, InClusterOf tp.id c →
      c.linkPrecedence = .secondary → c.linkedId = some tp.id) := by
  rcases primariesOf_facts hWF hp with
    ⟨htps, htplive, htpprec, htplink, hofacts, hond, htpid⟩
  rcases identify_store_shape hg hm hp with ⟨tail, hshape, htail⟩
  have hFtp : mergeFn (mergeOpsOf tp others now) tp = tp := by
    apply mergeFn_untouched
    · exact htpid
    · intro o ho
      rintro ⟨h, -⟩
      rw [htplink] at h
      cases h
  have hsorted : (primariesOf req s).Pairwise (fun a b => a.createdAt ≤ b.createdAt) := by
    unfold primariesOf
    exact sortByCreatedAt_sorted _
  have he1 : ∀ d ∈ (storeOf (identifyContact req now s)).contacts, d.id = tp.id →
      d.linkPrecedence = .primary := by
    intro d hd hdid
    rw [hshape] at hd
    rcases List.mem_append.mp hd with hd' | hd'
    · rcases List.mem_map.mp hd' with ⟨y, hy, hFy⟩
      have hyid : y.id = tp.id := by
        rw [← hdid, ← hFy, mergeFn_id]
      have hy' : y = tp := eq_of_mem_of_id_eq hWF.1 hy htps hyid
      rw [← hFy, hy', hFtp]
      exact htpprec
    · rcases htail with ht | ht
      · rw [ht] at hd'
        cases hd'
      · rw [ht] at hd'
        have hd'' : d = newSecondary req now tp.id s.nextId := List.mem_singleton.mp hd'
        exfalso
        have hbound : tp.id < s.nextId := hWF.2.1 tp htps
        rw [hd''] at hdid
        have hid2 : s.nextId = tp.id := hdid
        omega
  refine ⟨?_, ?_, htpprec, ?_, ?_, he1, ?_⟩
  · intro q hq
    rw [hp] at hsorted hq
    rcases List.pairwise_cons.mp hsorted with ⟨hhead, -⟩
    rcases List.mem_cons.mp hq with h | h
    · rw [h]
    · exact hhead q h
  · rw [hshape]
    apply List.mem_append_left
    have hmm2 : mergeFn (mergeOpsOf tp others now) tp ∈
        s.contacts.map (mergeFn (mergeOpsOf tp others now)) :=
      List.mem_map_of_mem _ htps
    rw [hFtp] at hmm2
    exact hmm2
  · intro o ho
    have hFo : mergeFn (mergeOpsOf tp others now) o =
        { o with linkedId := some tp.id, linkPrecedence := .secondary, updatedAt := now } :=
      mergeFn_demoted ho rfl ((hofacts o ho).2.2.2) hond htpid
    rw [hshape]
    apply List.mem_append_left
    have hmm2 : mergeFn (mergeOpsOf tp others now) o ∈
        s.contacts.map (mergeFn (mergeOpsOf tp others now)) :=
      List.mem_map_of_mem _ ((hofacts o ho).1)
    rw [hFo] at hmm2
    exact hmm2
  · intro c hcs hclive hlink
    rcases hlink with ⟨o, ho, hco⟩
    have hcid : ∀ o' ∈ others, c.id ≠ o'.id := by
      intro o' ho' heq
      have hco' : c = o' := eq_of_mem_of_id_eq hWF.1 hcs ((hofacts o' ho').1) heq
      have hbad : o'.linkedId = some o.id := hco' ▸ hco
      rw [(hofacts o' ho').2.2.2] at hbad
      cases hbad
    have hFc : mergeFn (mergeOpsOf tp others now) c =
        { c with linkedId := some tp.id, updatedAt := now } :=
      mergeFn_relinked hco hclive ⟨o, ho, rfl⟩ hcid hond htpid
    rw [hshape]
    apply List.mem_append_left
    have hmm2 : mergeFn (mergeOpsOf tp others now) c ∈
        s.contacts.map (mergeFn (mergeOpsOf tp others now)) :=
      List.mem_map_of_mem _ hcs
    rw [hFc] at hmm2
    exact hmm2
  · intro c hc hcl hcsec
    rcases hcl with ⟨-, hcase⟩
    rcases hcase with h | h
    · exfalso
      have hbad := he1 c hc h
      rw [hcsec] at hbad
      cases hbad
    · exact h

/-- Witness for C2: the concrete two-cluster merge (P1 older primary, P2 newer
primary with a secondary S) instantiating every conclusion. -/
theorem c2_forest_merge_witness :
    (∀ q ∈ primariesOf ⟨some "a@x", some "222"⟩
        ⟨[⟨1, some "a@x", some "111", none, .primary, 0, 0, none⟩,
          ⟨2, some "b@x", some "222", none, .primary, 1, 1, none⟩,
          ⟨3, some "c@x", some "333", some 2, .secondary, 2, 2, none⟩], 4⟩,
      (0 : Nat) ≤ q.createdAt) ∧
    (⟨1, some "a@x", some "111", none, .primary, 0, 0, none⟩ : Contact) ∈
      (storeOf (identifyContact ⟨some "a@x", some "222"⟩ 10
        ⟨[⟨1, some "a@x", some "111", none, .primary, 0, 0, none⟩,
          ⟨2, some "b@x", some "222", none, .primary, 1, 1, none⟩,
          ⟨3, some "c@x", some "333", some 2, .secondary, 2, 2, none⟩], 4⟩)).contacts ∧
    LinkPrecedence.primary = LinkPrecedence.primary ∧
    (∀ o ∈ [(⟨2, some "b@x", some "222", none, .primary, 1, 1, none⟩ : Contact)],
      ({ o with linkedId := some 1, linkPrecedence := .secondary, updatedAt := 10 } : Contact) ∈
        (storeOf (identifyContact ⟨some "a@x", some "222"⟩ 10
          ⟨[⟨1, some "a@x", some "111", none, .primary, 0, 0, none⟩,
            ⟨2, some "b@x", some "222", none, .primary, 1, 1, none⟩,
            ⟨3, some "c@x", some "333", some 2, .secondary, 2, 2, none⟩], 4⟩)).contacts) ∧
    (∀ c ∈ [(⟨1, some "a@x", some "111", none, .primary, 0, 0, none⟩ : Contact),
            ⟨2, some "b@x", some "222", none, .primary, 1, 1, none⟩,
            ⟨3, some "c@x", some "333", some 2, .secondary, 2, 2, none⟩],
      c.deletedAt = none →
      (∃ o ∈ [(⟨2, some "b@x", some "222", none, .primary, 1, 1, none⟩ : Contact)],
        c.linkedId = some o.id) →
      ({ c with linkedId := some 1, updatedAt := 10 } : Contact) ∈
        (storeOf (identifyContact ⟨some "a@x", some "222"⟩ 10
          ⟨[⟨1, some "a@x", some "111", none, .primary, 0, 0, none⟩,
            ⟨2, some "b@x", some "222", none, .primary, 1, 1, none⟩,
            ⟨3, some "c@x", some "333", some 2, .secondary, 2, 2, none⟩], 4⟩)).contacts) ∧
    (∀ d ∈ (storeOf (identifyContact ⟨some "a@x", some "222"⟩ 10
        ⟨[⟨1, some "a@x", some "111", none, .primary, 0, 0, none⟩,
          ⟨2, some "b@x", some "222", none, .primary, 1, 1, none⟩,
          ⟨3, some "c@x", some "333", some 2, .secondary, 2, 2, none⟩], 4⟩)).contacts,
      d.id = 1 → d.linkPrecedence = .primary) ∧
    (∀ c ∈ (storeOf (identifyContact ⟨some "a@x", some "222"⟩ 10
        ⟨[⟨1, some "a@x", some "111", none, .primary, 0, 0, none⟩,
          ⟨2, some "b@x", some "222", none, .primary, 1, 1, none⟩,
          ⟨3, some "c@x", some "333", some 2, .secondary, 2, 2, none⟩], 4⟩)).contacts,
      InClusterOf 1 c → c.linkPrecedence = .secondary → c.linkedId = some 1) :=
  c2_forest_merge ⟨some "a@x", some "222"⟩ 10
    ⟨[⟨1, some "a@x", some "111", none, .primary, 0, 0, none⟩,
      ⟨2, some "b@x", some "222", none, .primary, 1, 1, none⟩,
      ⟨3, some "c@x", some "333", some 2, .secondary, 2, 2, none⟩], 4⟩
    ⟨1, some "a@x", some "111", none, .primary, 0, 0, none⟩
    ⟨1, some "a@x", some "111", none, .primary, 0, 0, none⟩
    [⟨2, some "b@x", some "222", none, .primary, 1, 1, none⟩]
    [⟨2, some "b@x", some "222", none, .primary, 1, 1, none⟩]
    (by decide) (by decide) (by decide) (by decide) (by decide)

/-! ## Characterization of the post-call store (towards idempotence) -/

theorem nodup_map_id_sub {L l : List Contact} (hL : (L.map (fun c => c.id)).Nodup)
    (hnd : l.Nodup) (hsub : ∀ x ∈ l, x ∈ L) : (l.map (fun c => c.id)).Nodup :=
  List.Nodup.map_on
    (fun x hx y hy hxy => eq_of_mem_of_id_eq hL (hsub x hx) (hsub y hy) hxy) hnd

/-- A row whose id is none of the stale primaries' ids keeps its
`linkPrecedence` through the merge writes. -/
theorem mergeFn_prec_of_ne {tp : Contact} {now : Nat} {others : List Contact} {c : Contact}
    (h : ∀ o ∈ others, c.id ≠ o.id) :
    (mergeFn (mergeOpsOf tp others now) c).linkPrecedence = c.linkPrecedence := by
  induction others generalizing c with
  | nil => rfl
  | cons o os ih =>
    rw [mergeOpsOf_cons, mergeFn_cons, mergeFn_cons]
    have hd : opFn (StoreOp.demote o.id tp.id now) c = c := by
      simp only [opFn, applyDemote]
      rw [if_neg (h o (List.mem_cons_self o os))]
    rw [hd]
    have hrel : (opFn (StoreOp.relink o.id tp.id now) c).linkPrecedence = c.linkPrecedence ∧
        (opFn (StoreOp.relink o.id tp.id now) c).id = c.id := by
      simp only [opFn, applyRelink]
      split <;> exact ⟨rfl, rfl⟩
    rw [ih (fun o' h' => by rw [hrel.2]; exact h o' (List.mem_cons_of_mem o h')), hrel.1]

/-- The selected true primary is untouched by the merge writes. -/
theorem mergeFn_tp_fixed {req : Request} {s : Store} {tp : Contact}
    {others : List Contact} {now : Nat} (hWF : s.WF)
    (hp : primariesOf req s = tp :: others) :
    mergeFn (mergeOpsOf tp others now) tp = tp := by
  rcases primariesOf_facts hWF hp with ⟨-, -, -, htplink, -, -, htpid⟩
  apply mergeFn_untouched htpid
  intro o ho
  rintro ⟨h, -⟩
  rw [htplink] at h
  cases h

/-- The merge image of every matching row lies in the true primary's cluster:
its id is the root's, or it links directly to the root. -/
theorem match_image_cluster {req : Request} {s : Store} {tp : Contact}
    {others : List Contact} {now : Nat} (hWF : s.WF)
    (hp : primariesOf req s = tp :: others)
    {y : Contact} (hy : y ∈ s.contacts)
    (hmatch : MatchesReq req.email req.phoneNumber y) :
    (mergeFn (mergeOpsOf tp others now) y).id = tp.id ∨
      (mergeFn (mergeOpsOf tp others now) y).linkedId = some tp.id := by
  rcases primariesOf_facts hWF hp with ⟨htps, -, -, htplink, hofacts, hond, htpid⟩
  have hym : y ∈ findMatches req s := mem_findMatches.mpr ⟨hy, hmatch⟩
  have hylive : y.deletedAt = none := hmatch.1
  cases hyprec : y.linkPrecedence with
  | primary =>
    have hroot : y.id ∈ rootsOf (findMatches req s) := by
      unfold rootsOf
      refine List.mem_filterMap.mpr ⟨y, hym, ?_⟩
      unfold rootOf
      rw [if_pos hyprec]
    have hyp : y ∈ primariesOf req s := by
      rw [mem_primariesOf, mem_candidatesOf]
      exact ⟨⟨hy, hylive, Or.inl hroot⟩, hyprec⟩
    rw [hp] at hyp
    rcases List.mem_cons.mp hyp with h | h
    · subst h
      rw [mergeFn_tp_fixed hWF hp]
      exact Or.inl rfl
    · right
      rw [mergeFn_demoted h rfl ((hofacts y h).2.2.2) hond htpid]
  | secondary =>
    rcases hWF.2.2.2 y hy hylive hyprec with ⟨R, hR, hlink, hRlive, hRprec⟩
    have hroot : R.id ∈ rootsOf (findMatches req s) := by
      unfold rootsOf
      refine List.mem_filterMap.mpr ⟨y, hym, ?_⟩
      unfold rootOf
      rw [if_neg (by rw [hyprec]; intro h; cases h)]
      exact hlink
    have hRp : R ∈ primariesOf req s := by
      rw [mem_primariesOf, mem_candidatesOf]
      exact ⟨⟨hR, hRlive, Or.inl hroot⟩, hRprec⟩
    have hyid : ∀ o ∈ others, y.id ≠ o.id := by
      intro o ho heq
      have hyo : y = o := eq_of_mem_of_id_eq hWF.1 hy ((hofacts o ho).1) heq
      rw [hyo, (hofacts o ho).2.2.1] at hyprec
      cases hyprec
    rw [hp] at hRp
    rcases List.mem_cons.mp hRp with h | h
    · right
      have hfix : mergeFn (mergeOpsOf tp others now) y = y := by
        apply mergeFn_untouched hyid
        intro o ho
        rintro ⟨h', -⟩
        rw [hlink] at h'
        have hRo : R.id = o.id := Option.some_inj.mp h'
        exact htpid o ho (h ▸ hRo)
      rw [hfix, hlink, h]
    · right
      rw [mergeFn_relinked hlink hylive ⟨R, h, rfl⟩ hyid hond htpid]

theorem store_row_tp {req : Request} {now : Nat} {s : Store} {m tp : Contact}
    {ms others : List Contact} (hWF : s.WF)
    (hg : (truthy req.email || truthy req.phoneNumber) = true)
    (hm : findMatches req s = m :: ms)
    (hp : primariesOf req s = tp :: others) :
    ∀ x ∈ (storeOf (identifyContact req now s)).contacts, x.id = tp.id → x = tp := by
  rcases primariesOf_facts hWF hp with ⟨htps, -, -, -, -, -, -⟩
  rcases identify_store_shape hg hm hp with ⟨tail, hshape, htail⟩
  intro x hx hxid
  rw [hshape] at hx
  rcases List.mem_append.mp hx with hx' | hx'
  · rcases List.mem_map.mp hx' with ⟨y, hy, hFy⟩
    have hyid : y.id = tp.id := by
      rw [← hxid, ← hFy, mergeFn_id]
    have hy' : y = tp := eq_of_mem_of_id_eq hWF.1 hy htps hyid
    rw [← hFy, hy', mergeFn_tp_fixed hWF hp]
  · rcases htail with ht | ht
    · rw [ht] at hx'
      cases hx'
    · rw [ht] at hx'
      have hx'' : x = newSecondary req now tp.id s.nextId := List.mem_singleton.mp hx'
      exfalso
      have hbound : tp.id < s.nextId := hWF.2.1 tp htps
      rw [hx''] at hxid
      have hid2 : s.nextId = tp.id := hxid
      omega

theorem store_cluster_unique_primary {req : Request} {now : Nat} {s : Store}
    {m tp : Contact} {ms others : List Contact} (hWF : s.WF)
    (hg : (truthy req.email || truthy req.phoneNumber) = true)
    (hm : findMatches req s = m :: ms)
    (hp : primariesOf req s = tp :: others) :
    ∀ x ∈ (storeOf (identifyContact req now s)).contacts, x.deletedAt = none →
      (x.id = tp.id ∨ x.linkedId = some tp.id) → x.linkPrecedence = .primary → x = tp := by
  rcases primariesOf_facts hWF hp with ⟨htps, -, -, -, hofacts, -, -⟩
  rcases identify_store_shape hg hm hp with ⟨tail, hshape, htail⟩
  intro x hx hxlive hxcl hxprec
  rcases hxcl with hxid | hxlink
  · exact store_row_tp hWF hg hm hp x hx hxid
  · exfalso
    rw [hshape] at hx
    rcases List.mem_append.mp hx with hx' | hx'
    · rcases List.mem_map.mp hx' with ⟨y, hy, hFy⟩
      by_cases hcase : ∃ o ∈ others, y.id = o.id
      · rcases hcase with ⟨o, ho, hyo⟩
        have hyeq : y = o := eq_of_mem_of_id_eq hWF.1 hy ((hofacts o ho).1) hyo
        rcases primariesOf_facts hWF hp with ⟨-, -, -, -, -, hond, htpid⟩
        have hdem : mergeFn (mergeOpsOf tp others now) y =
            { y with linkedId := some tp.id, linkPrecedence := .secondary, updatedAt := now } :=
          mergeFn_demoted ho hyo (by rw [hyeq]; exact (hofacts o ho).2.2.2) hond htpid
        rw [← hFy, hdem] at hxprec
        cases hxprec
      · push_neg at hcase
        have hyprec : y.linkPrecedence = .primary := by
          rw [← mergeFn_prec_of_ne (fun o ho => hcase o ho), hFy]
          exact hxprec
        have hylive : y.deletedAt = none := by
          rw [← mergeFn_deletedAt (mergeOpsOf tp others now) y, hFy]
          exact hxlive
        have hylink : y.linkedId = none := hWF.2.2.1 y hy hylive hyprec
        have hfix : mergeFn (mergeOpsOf tp others now) y = y := by
          apply mergeFn_untouched (fun o ho => hcase o ho)
          intro o ho
          rintro ⟨h', -⟩
          rw [hylink] at h'
          cases h'
        rw [← hFy, hfix, hylink] at hxlink
        cases hxlink
    · rcases htail with ht | ht
      · rw [ht] at hx'
        cases hx'
      · rw [ht] at hx'
        have hx'' : x = newSecondary req now tp.id s.nextId := List.mem_singleton.mp hx'
        rw [hx''] at hxprec
        have : LinkPrecedence.secondary = LinkPrecedence.primary := hxprec
        cases this

theorem store_nodup_ids {req : Request} {now : Nat} {s : Store} {m tp : Contact}
    {ms others : List Contact} (hWF : s.WF)
    (hg : (truthy req.email || truthy req.phoneNumber) = true)
    (hm : findMatches req s = m :: ms)
    (hp : primariesOf req s = tp :: others) :
    ((storeOf (identifyContact req now s)).contacts.map (fun c => c.id)).Nodup := by
  rcases identify_store_shape hg hm hp with ⟨tail, hshape, htail⟩
  rw [hshape, List.map_append]
  have hmap : (s.contacts.map (mergeFn (mergeOpsOf tp others now))).map (fun c => c.id) =
      s.contacts.map (fun c => c.id) := by
    rw [List.map_map]
    apply List.map_congr_left
    intro c _
    exact mergeFn_id _ c
  rw [hmap]
  rcases htail with ht | ht
  · rw [ht]
    simpa using hWF.1
  · rw [ht]
    refine List.Nodup.append hWF.1 (by simp) ?_
    intro a ha
    rcases List.mem_map.mp ha with ⟨c, hc, hca⟩
    have hlt : c.id < s.nextId := hWF.2.1 c hc
    simp only [List.map_cons, List.map_nil, List.mem_singleton]
    intro heq
    have hnc : (newSecondary req now tp.id s.nextId).id = s.nextId := rfl
    rw [heq, hnc] at hca
    omega

theorem store_contacts_nodup {req : Request} {now : Nat} {s : Store} {m tp : Contact}
    {ms others : List Contact} (hWF : s.WF)
    (hg : (truthy req.email || truthy req.phoneNumber) = true)
    (hm : findMatches req s = m :: ms)
    (hp : primariesOf req s = tp :: others) :
    (storeOf (identifyContact req now s)).contacts.Nodup :=
  List.Nodup.of_map _ (store_nodup_ids hWF hg hm hp)

theorem inClusterRoots_iff_of_all {roots : List Nat} {tpId : Nat} {c : Contact}
    (hall : ∀ rt ∈ roots, rt = tpId) (hmem : tpId ∈ roots) :
    InClusterRoots roots c ↔ InClusterOf tpId c := by
  unfold InClusterRoots InClusterOf
  constructor
  · rintro ⟨hlive, hcase⟩
    refine ⟨hlive, ?_⟩
    rcases hcase with h | ⟨l, hl, hlink⟩
    · exact Or.inl (hall _ h)
    · exact Or.inr (by rw [hlink, hall l hl])
  · rintro ⟨hlive, hcase⟩
    refine ⟨hlive, ?_⟩
    rcases hcase with h | h
    · exact Or.inl (h ▸ hmem)
    · exact Or.inr ⟨tpId, hmem, h⟩

/-- Under link integrity every match contributes a root. -/
theorem root_exists_of_match {req : Request} {s : Store} {y : Contact} (hWF : s.WF)
    (hy : y ∈ findMatches req s) : ∃ rt, rootOf y = some rt := by
  rcases mem_findMatches.mp hy with ⟨hys, hmatch⟩
  cases hyprec : y.linkPrecedence with
  | primary =>
    exact ⟨y.id, by unfold rootOf; rw [if_pos hyprec]⟩
  | secondary =>
    rcases hWF.2.2.2 y hys hmatch.1 hyprec with ⟨R, -, hlink, -, -⟩
    exact ⟨R.id, by unfold rootOf; rw [if_neg (by rw [hyprec]; intro h; cases h)]; exact hlink⟩

/-- When the candidate set has exactly one primary, every touched root is its id. -/
theorem roots_all_tp_of_single {req : Request} {s : Store} {tp : Contact} (hWF : s.WF)
    (hp : primariesOf req s = [tp]) :
    ∀ rt ∈ rootsOf (findMatches req s), rt = tp.id := by
  intro rt hrt
  rcases root_covered hWF rt hrt with ⟨R, hR, hRid⟩
  rw [hp] at hR
  rw [← hRid, List.mem_singleton.mp hR]

theorem tpid_mem_roots_of_single {req : Request} {s : Store} {m tp : Contact}
    {ms : List Contact} (hWF : s.WF) (hm : findMatches req s = m :: ms)
    (hp : primariesOf req s = [tp]) :
    tp.id ∈ rootsOf (findMatches req s) := by
  have hmm : m ∈ findMatches req s := by rw [hm]; exact List.mem_cons_self m ms
  rcases root_exists_of_match hWF hmm with ⟨rt, hroot⟩
  have hrt : rt ∈ rootsOf (findMatches req s) := by
    unfold rootsOf
    exact List.mem_filterMap.mpr ⟨m, hmm, hroot⟩
  rw [← roots_all_tp_of_single hWF hp rt hrt]
  exact hrt

/-- With exactly one candidate primary the candidate set is exactly the root's
cluster in the same store. -/
theorem candidatesOf_eq_cluster_of_single {req : Request} {s : Store} {m tp : Contact}
    {ms : List Contact} (hWF : s.WF) (hm : findMatches req s = m :: ms)
    (hp : primariesOf req s = [tp]) :
    candidatesOf req s = clusterContacts tp.id s := by
  unfold candidatesOf clusterContacts
  congr 1
  apply List.filter_congr
  intro c _
  apply decide_eq_decide.mpr
  exact inClusterRoots_iff_of_all (roots_all_tp_of_single hWF hp)
    (tpid_mem_roots_of_single hWF hm hp)

/-- Membership of the step-6 `allContacts` list: exactly the live members of the
true primary's cluster in the post-merge store. -/
theorem mem_allContactsAfterMerge {req : Request} {now : Nat} {s : Store}
    {m tp : Contact} {ms others : List Contact} (hWF : s.WF)
    (hm : findMatches req s = m :: ms)
    (hp : primariesOf req s = tp :: others) {x : Contact} :
    x ∈ allContactsAfterMerge req now s tp others ↔
      x ∈ (postMergeStore tp others now s).contacts ∧ InClusterOf tp.id x := by
  unfold allContactsAfterMerge
  cases hothers : others with
  | nil =>
    rw [hothers] at hp
    simp only [List.isEmpty_nil, if_true]
    rw [candidatesOf_eq_cluster_of_single hWF hm hp]
    show x ∈ clusterContacts tp.id s ↔ x ∈ (postMergeStore tp [] now s).contacts ∧ _
    have hpost : postMergeStore tp [] now s = s := rfl
    rw [hpost]
    exact mem_clusterContacts
  | cons o os =>
    simp only [List.isEmpty_cons, if_false]
    exact mem_clusterContacts

theorem tp_mem_store {req : Request} {now : Nat} {s : Store} {m tp : Contact}
    {ms others : List Contact} (hWF : s.WF)
    (hg : (truthy req.email || truthy req.phoneNumber) = true)
    (hm : findMatches req s = m :: ms)
    (hp : primariesOf req s = tp :: others) :
    tp ∈ (storeOf (identifyContact req now s)).contacts := by
  rcases primariesOf_facts hWF hp with ⟨htps, -, -, -, -, -, -⟩
  rcases identify_store_shape hg hm hp with ⟨tail, hshape, -⟩
  rw [hshape]
  apply List.mem_append_left
  have hmm2 : mergeFn (mergeOpsOf tp others now) tp ∈
      s.contacts.map (mergeFn (mergeOpsOf tp others now)) :=
    List.mem_map_of_mem _ htps
  rw [mergeFn_tp_fixed hWF hp] at hmm2
  exact hmm2

theorem nc_mem_store {req : Request} {now : Nat} {s : Store} {m tp : Contact}
    {ms others : List Contact}
    (hg : (truthy req.email || truthy req.phoneNumber) = true)
    (hm : findMatches req s = m :: ms)
    (hp : primariesOf req s = tp :: others)
    (hc : createCondB req (allContactsAfterMerge req now s tp others) = true) :
    newSecondary req now tp.id s.nextId ∈ (storeOf (identifyContact req now s)).contacts := by
  rw [identifyContact_eq_finish hg hm hp, finishIdentify_store, if_pos hc]
  show _ ∈ (postMergeStore tp others now s).contacts ++
    [newSecondary req now tp.id (postMergeStore tp others now s).nextId]
  rw [postMergeStore_nextId]
  exact List.mem_append_right _ (List.mem_singleton.mpr rfl)

theorem matchesReq_mergeFn {e p : Option String} {ops : List StoreOp} {y : Contact} :
    MatchesReq e p (mergeFn ops y) ↔ MatchesReq e p y := by
  unfold MatchesReq
  rw [mergeFn_deletedAt, mergeFn_email, mergeFn_phone]

theorem match_image_mem_cluster2 {req : Request} {now : Nat} {s : Store}
    {m tp : Contact} {ms others : List Contact} (hWF : s.WF)
    (hg : (truthy req.email || truthy req.phoneNumber) = true)
    (hm : findMatches req s = m :: ms)
    (hp : primariesOf req s = tp :: others) {y : Contact} (hy : y ∈ s.contacts)
    (hmatch : MatchesReq req.email req.phoneNumber y) :
    mergeFn (mergeOpsOf tp others now) y ∈
      clusterContacts tp.id (storeOf (identifyContact req now s)) := by
  rcases identify_store_shape hg hm hp with ⟨tail, hshape, -⟩
  refine mem_clusterContacts.mpr ⟨?_, ?_, ?_⟩
  · rw [hshape]
    exact List.mem_append_left _ (List.mem_map_of_mem _ hy)
  · rw [mergeFn_deletedAt]
    exact hmatch.1
  · exact match_image_cluster hWF hp hy hmatch

theorem matches2_root {req : Request} {now : Nat} {s : Store} {m tp : Contact}
    {ms others : List Contact} (hWF : s.WF)
    (hg : (truthy req.email || truthy req.phoneNumber) = true)
    (hm : findMatches req s = m :: ms)
    (hp : primariesOf req s = tp :: others) :
    ∀ x ∈ findMatches req (storeOf (identifyContact req now s)), rootOf x = some tp.id := by
  rcases primariesOf_facts hWF hp with ⟨-, -, htpprec, -, -, -, -⟩
  rcases identify_store_shape hg hm hp with ⟨tail, hshape, htail⟩
  intro x hx
  rcases mem_findMatches.mp hx with ⟨hxS, hmatch2⟩
  have hxcl : x.id = tp.id ∨ x.linkedId = some tp.id := by
    rw [hshape] at hxS
    rcases List.mem_append.mp hxS with hx' | hx'
    · rcases List.mem_map.mp hx' with ⟨y, hy, hFy⟩
      rw [← hFy]
      have hmx : MatchesReq req.email req.phoneNumber
          (mergeFn (mergeOpsOf tp others now) y) := by
        rw [hFy]
        exact hmatch2
      exact match_image_cluster hWF hp hy (matchesReq_mergeFn.mp hmx)
    · rcases htail with ht | ht
      · rw [ht] at hx'
        cases hx'
      · rw [ht] at hx'
        rw [List.mem_singleton.mp hx']
        exact Or.inr rfl
  cases hxprec : x.linkPrecedence with
  | primary =>
    have hxtp : x = tp :=
      store_cluster_unique_primary hWF hg hm hp x (mem_findMatches.mp hx).1
        hmatch2.1 hxcl hxprec
    rw [hxtp]
    unfold rootOf
    rw [if_pos htpprec]
  | secondary =>
    unfold rootOf
    rw [if_neg (by rw [hxprec]; intro h; cases h)]
    rcases hxcl with h | h
    · exfalso
      have hxtp : x = tp := store_row_tp hWF hg hm hp x (mem_findMatches.mp hx).1 h
      rw [hxtp, htpprec] at hxprec
      cases hxprec
    · exact h

theorem matches2_mem {req : Request} {now : Nat} {s : Store} {m tp : Contact}
    {ms others : List Contact} (hWF : s.WF)
    (hg : (truthy req.email || truthy req.phoneNumber) = true)
    (hm : findMatches req s = m :: ms)
    (hp : primariesOf req s = tp :: others) :
    mergeFn (mergeOpsOf tp others now) m ∈
      findMatches req (storeOf (identifyContact req now s)) := by
  rcases identify_store_shape hg hm hp with ⟨tail, hshape, -⟩
  have hmm : m ∈ findMatches req s := by rw [hm]; exact List.mem_cons_self m ms
  rcases mem_findMatches.mp hmm with ⟨hms, hmatch⟩
  refine mem_findMatches.mpr ⟨?_, matchesReq_mergeFn.mpr hmatch⟩
  rw [hshape]
  exact List.mem_append_left _ (List.mem_map_of_mem _ hms)

theorem matches2_ne_nil {req : Request} {now : Nat} {s : Store} {m tp : Contact}
    {ms others : List Contact} (hWF : s.WF)
    (hg : (truthy req.email || truthy req.phoneNumber) = true)
    (hm : findMatches req s = m :: ms)
    (hp : primariesOf req s = tp :: others) :
    findMatches req (storeOf (identifyContact req now s)) ≠ [] :=
  List.ne_nil_of_mem (matches2_mem hWF hg hm hp)

theorem candidates2_eq_cluster {req : Request} {now : Nat} {s : Store} {m tp : Contact}
    {ms others : List Contact} (hWF : s.WF)
    (hg : (truthy req.email || truthy req.phoneNumber) = true)
    (hm : findMatches req s = m :: ms)
    (hp : primariesOf req s = tp :: others) :
    candidatesOf req (storeOf (identifyContact req now s)) =
      clusterContacts tp.id (storeOf (identifyContact req now s)) := by
  unfold candidatesOf clusterContacts
  congr 1
  apply List.filter_congr
  intro c _
  apply decide_eq_decide.mpr
  apply inClusterRoots_iff_of_all
  · intro rt hrt
    unfold rootsOf at hrt
    rcases List.mem_filterMap.mp hrt with ⟨x, hx, hroot⟩
    have := matches2_root hWF hg hm hp x hx
    rw [this] at hroot
    exact (Option.some_inj.mp hroot).symm
  · unfold rootsOf
    refine List.mem_filterMap.mpr ⟨mergeFn (mergeOpsOf tp others now) m,
      matches2_mem hWF hg hm hp, ?_⟩
    exact matches2_root hWF hg hm hp _ (matches2_mem hWF hg hm hp)

theorem tp_mem_cluster2 {req : Request} {now : Nat} {s : Store} {m tp : Contact}
    {ms others : List Contact} (hWF : s.WF)
    (hg : (truthy req.email || truthy req.phoneNumber) = true)
    (hm : findMatches req s = m :: ms)
    (hp : primariesOf req s = tp :: others) :
    tp ∈ clusterContacts tp.id (storeOf (identifyContact req now s)) := by
  rcases primariesOf_facts hWF hp with ⟨-, htplive, -, -, -, -, -⟩
  exact mem_clusterContacts.mpr ⟨tp_mem_store hWF hg hm hp, htplive, Or.inl rfl⟩

theorem primaries2_eq {req : Request} {now : Nat} {s : Store} {m tp : Contact}
    {ms others : List Contact} (hWF : s.WF)
    (hg : (truthy req.email || truthy req.phoneNumber) = true)
    (hm : findMatches req s = m :: ms)
    (hp : primariesOf req s = tp :: others) :
    primariesOf req (storeOf (identifyContact req now s)) = [tp] := by
  rcases primariesOf_facts hWF hp with ⟨-, -, htpprec, -, -, -, -⟩
  unfold primariesOf
  rw [candidates2_eq_cluster hWF hg hm hp]
  have hnd : (clusterContacts tp.id (storeOf (identifyContact req now s))).Nodup := by
    unfold clusterContacts
    exact sortByCreatedAt_nodup ((store_contacts_nodup hWF hg hm hp).filter _)
  have hfil : (clusterContacts tp.id (storeOf (identifyContact req now s))).filter
      (fun c => decide (c.linkPrecedence = .primary)) = [tp] := by
    apply filter_eq_single hnd (tp_mem_cluster2 hWF hg hm hp)
    intro x hx
    rcases mem_clusterContacts.mp hx with ⟨hxS, hxlive, hxcl⟩
    rw [decide_eq_true_eq]
    constructor
    · intro hxprec
      exact store_cluster_unique_primary hWF hg hm hp x hxS hxlive hxcl hxprec
    · intro hxtp
      rw [hxtp]
      exact htpprec
  rw [hfil]
  rfl

theorem cluster2_has_email {req : Request} {now : Nat} {s : Store} {m tp : Contact}
    {ms others : List Contact} (hWF : s.WF)
    (hg : (truthy req.email || truthy req.phoneNumber) = true)
    (hm : findMatches req s = m :: ms)
    (hp : primariesOf req s = tp :: others)
    (ht : truthy req.email = true) :
    HasEmailVal (clusterContacts tp.id (storeOf (identifyContact req now s))) req.email := by
  by_cases hex : ∃ y ∈ s.contacts,
      MatchesReq req.email req.phoneNumber y ∧ y.email = req.email
  · rcases hex with ⟨y, hy, hmy, hye⟩
    refine ⟨mergeFn (mergeOpsOf tp others now) y,
      match_image_mem_cluster2 hWF hg hm hp hy hmy, ?_⟩
    rw [mergeFn_email]
    exact hye
  · push_neg at hex
    have hm' : m ∈ findMatches req s := by rw [hm]; exact List.mem_cons_self m ms
    rcases mem_findMatches.mp hm' with ⟨hms, hmm⟩
    have htp' : truthy req.phoneNumber = true := by
      by_contra hpf
      rcases hmm.2 with ⟨-, he⟩ | ⟨hpt, -⟩
      · exact hex m hms hmm he
      · exact hpf hpt
    have hnoHas : ¬ HasEmailVal (allContactsAfterMerge req now s tp others) req.email := by
      rintro ⟨c, hc, hce⟩
      rcases (mem_allContactsAfterMerge hWF hm hp).mp hc with ⟨hcpost, hclive, -⟩
      rw [postMergeStore_contacts] at hcpost
      rcases List.mem_map.mp hcpost with ⟨y, hy, hFy⟩
      have hye : y.email = req.email := by
        rw [← mergeFn_email (mergeOpsOf tp others now) y, hFy]
        exact hce
      have hylive : y.deletedAt = none := by
        rw [← mergeFn_deletedAt (mergeOpsOf tp others now) y, hFy]
        exact hclive
      exact hex y hy ⟨hylive, Or.inl ⟨ht, hye⟩⟩ hye
    have hc : createCondB req (allContactsAfterMerge req now s tp others) = true := by
      unfold createCondB
      simp [ht, htp', hnoHas]
    exact ⟨newSecondary req now tp.id s.nextId,
      mem_clusterContacts.mpr ⟨nc_mem_store hg hm hp hc, rfl, Or.inr rfl⟩, rfl⟩

theorem cluster2_has_phone {req : Request} {now : Nat} {s : Store} {m tp : Contact}
    {ms others : List Contact} (hWF : s.WF)
    (hg : (truthy req.email || truthy req.phoneNumber) = true)
    (hm : findMatches req s = m :: ms)
    (hp : primariesOf req s = tp :: others)
    (ht : truthy req.phoneNumber = true) :
    HasPhoneVal (clusterContacts tp.id (storeOf (identifyContact req now s)))
      req.phoneNumber := by
  by_cases hex : ∃ y ∈ s.contacts,
      MatchesReq req.email req.phoneNumber y ∧ y.phoneNumber = req.phoneNumber
  · rcases hex with ⟨y, hy, hmy, hye⟩
    refine ⟨mergeFn (mergeOpsOf tp others now) y,
      match_image_mem_cluster2 hWF hg hm hp hy hmy, ?_⟩
    rw [mergeFn_phone]
    exact hye
  · push_neg at hex
    have hm' : m ∈ findMatches req s := by rw [hm]; exact List.mem_cons_self m ms
    rcases mem_findMatches.mp hm' with ⟨hms, hmm⟩
    have htp' : truthy req.email = true := by
      by_contra hpf
      rcases hmm.2 with ⟨het, -⟩ | ⟨-, hph⟩
      · exact hpf het
      · exact hex m hms hmm hph
    have hnoHas : ¬ HasPhoneVal (allContactsAfterMerge req now s tp others)
        req.phoneNumber := by
      rintro ⟨c, hc, hce⟩
      rcases (mem_allContactsAfterMerge hWF hm hp).mp hc with ⟨hcpost, hclive, -⟩
      rw [postMergeStore_contacts] at hcpost
      rcases List.mem_map.mp hcpost with ⟨y, hy, hFy⟩
      have hye : y.phoneNumber = req.phoneNumber := by
        rw [← mergeFn_phone (mergeOpsOf tp others now) y, hFy]
        exact hce
      have hylive : y.deletedAt = none := by
        rw [← mergeFn_deletedAt (mergeOpsOf tp others now) y, hFy]
        exact hclive
      exact hex y hy ⟨hylive, Or.inr ⟨ht, hye⟩⟩ hye
    have hc : createCondB req (allContactsAfterMerge req now s tp others) = true := by
      unfold createCondB
      simp [ht, htp', hnoHas]
    exact ⟨newSecondary req now tp.id s.nextId,
      mem_clusterContacts.mpr ⟨nc_mem_store hg hm hp hc, rfl, Or.inr rfl⟩, rfl⟩

/-- The generic second-run lemma: on a store whose candidate set for `req`
resolves to the single primary `tpx`, whose candidate set is exactly `tpx`'s
cluster, and whose cluster already carries the supplied identifiers, the call
commits nothing and returns the cluster's canonical response. -/
theorem second_run {req : Request} {t2 : Nat} {T : Store} {tpx : Contact}
    (hnodup : (T.contacts.map (fun c => c.id)).Nodup)
    (hg : (truthy req.email || truthy req.phoneNumber) = true)
    (hm2 : findMatches req T ≠ [])
    (hp2 : primariesOf req T = [tpx])
    (hcand : candidatesOf req T = clusterContacts tpx.id T)
    (he : truthy req.email = true → HasEmailVal (clusterContacts tpx.id T) req.email)
    (hph : truthy req.phoneNumber = true →
      HasPhoneVal (clusterContacts tpx.id T) req.phoneNumber)
    (htpm : tpx ∈ clusterContacts tpx.id T) :
    ∃ resp2, identifyContact req t2 T =
        .success { store := T, response := resp2, ops := [] } ∧
      resp2.primaryContactId = tpx.id ∧
      (∀ x, x ∈ resp2.emails ↔ x ≠ "" ∧
        ∃ c ∈ clusterContacts tpx.id T, c.email = some x) ∧
      (∀ x, x ∈ resp2.phoneNumbers ↔ x ≠ "" ∧
        ∃ c ∈ clusterContacts tpx.id T, c.phoneNumber = some x) := by
  obtain ⟨m2, ms2, hm2'⟩ := List.exists_cons_of_ne_nil hm2
  have heq := @identifyContact_eq_finish req t2 T m2 tpx ms2 [] hg hm2' hp2
  have hallC : allContactsAfterMerge req t2 T tpx [] = clusterContacts tpx.id T := by
    unfold allContactsAfterMerge
    simp only [List.isEmpty_nil, if_true]
    exact hcand
  have hcc : createCondB req (allContactsAfterMerge req t2 T tpx []) = false := by
    rw [hallC]
    unfold createCondB
    cases hte : truthy req.email with
    | false => simp [hte]
    | true =>
      cases htp : truthy req.phoneNumber with
      | false => simp [htp]
      | true =>
        have h1 := he hte
        have h2 := hph htp
        simp [hte, htp, h1, h2]
  have hclnd : (clusterContacts tpx.id T).Nodup := by
    unfold clusterContacts
    exact sortByCreatedAt_nodup ((List.Nodup.of_map _ hnodup).filter _)
  have hclids : ((clusterContacts tpx.id T).map (fun c => c.id)).Nodup :=
    nodup_map_id_sub hnodup hclnd (fun x hx => (mem_clusterContacts.mp hx).1)
  have hfind : (clusterContacts tpx.id T).find?
      (fun c => decide (c.id = tpx.id)) = some tpx :=
    find?_id_eq hclids htpm rfl
  obtain ⟨resp2, hb2⟩ : ∃ r, buildResponse tpx.id (clusterContacts tpx.id T)
      (secondaryIdsOf (clusterContacts tpx.id T)) = some r :=
    ⟨_, buildResponse_eq hfind⟩
  refine ⟨resp2, ?_, buildResponse_primaryContactId hb2, ?_, ?_⟩
  · rw [heq]
    unfold finishIdentify
    rw [hcc, if_neg (by simp), hallC, hb2]
    rfl
  · intro x
    exact buildResponse_mem_emails hclids hfind hb2 x
  · intro x
    exact buildResponse_mem_phones hclids hfind hb2 x

theorem postMerge_nodup_ids {tp : Contact} {others : List Contact} {now : Nat}
    {s : Store} (hWF : s.WF) :
    ((postMergeStore tp others now s).contacts.map (fun c => c.id)).Nodup := by
  rw [postMergeStore_contacts, List.map_map]
  have hcongr : s.contacts.map ((fun c => c.id) ∘ mergeFn (mergeOpsOf tp others now)) =
      s.contacts.map (fun c => c.id) :=
    List.map_congr_left (fun c _ => mergeFn_id _ c)
  rw [hcongr]
  exact hWF.1

theorem allContactsAfterMerge_nodup {req : Request} {now : Nat} {s : Store}
    {tp : Contact} {others : List Contact} (hWF : s.WF) :
    (allContactsAfterMerge req now s tp others).Nodup := by
  unfold allContactsAfterMerge
  cases others with
  | nil =>
    simp only [List.isEmpty_nil, if_true]
    exact candidatesOf_nodup hWF
  | cons o os =>
    simp only [List.isEmpty_cons, if_false]
    unfold clusterContacts
    exact sortByCreatedAt_nodup
      ((List.Nodup.of_map _ (postMerge_nodup_ids hWF)).filter _)

theorem allContactsAfterMerge_nodup_ids {req : Request} {now : Nat} {s : Store}
    {m tp : Contact} {ms others : List Contact} (hWF : s.WF)
    (hm : findMatches req s = m :: ms)
    (hp : primariesOf req s = tp :: others) :
    ((allContactsAfterMerge req now s tp others).map (fun c => c.id)).Nodup :=
  nodup_map_id_sub (postMerge_nodup_ids hWF) (allContactsAfterMerge_nodup hWF)
    (fun x hx => ((mem_allContactsAfterMerge hWF hm hp).mp hx).1)

theorem allContactsAfterMerge_id_lt {req : Request} {now : Nat} {s : Store}
    {m tp : Contact} {ms others : List Contact} (hWF : s.WF)
    (hm : findMatches req s = m :: ms)
    (hp : primariesOf req s = tp :: others) :
    ∀ x ∈ allContactsAfterMerge req now s tp others, x.id < s.nextId := by
  intro x hx
  rcases (mem_allContactsAfterMerge hWF hm hp).mp hx with ⟨hxp, -⟩
  rw [postMergeStore_contacts] at hxp
  rcases List.mem_map.mp hxp with ⟨y, hy, hFy⟩
  have hxy : x.id = y.id := by rw [← hFy, mergeFn_id]
  rw [hxy]
  exact hWF.2.1 y hy

theorem tp_mem_allContactsAfterMerge {req : Request} {now : Nat} {s : Store}
    {m tp : Contact} {ms others : List Contact} (hWF : s.WF)
    (hm : findMatches req s = m :: ms)
    (hp : primariesOf req s = tp :: others) :
    tp ∈ allContactsAfterMerge req now s tp others := by
  rcases primariesOf_facts hWF hp with ⟨htps, htplive, -, -, -, -, -⟩
  refine (mem_allContactsAfterMerge hWF hm hp).mpr ⟨?_, htplive, Or.inl rfl⟩
  rw [postMergeStore_contacts]
  have hmm2 : mergeFn (mergeOpsOf tp others now) tp ∈
      s.contacts.map (mergeFn (mergeOpsOf tp others now)) :=
    List.mem_map_of_mem _ htps
  rw [mergeFn_tp_fixed hWF hp] at hmm2
  exact hmm2

/-- The response of a successful call (on the matched path) lists exactly the
identifiers of the true primary's cluster in the post-call store. -/
theorem response1_sets {req : Request} {now : Nat} {s : Store} {m tp : Contact}
    {ms others : List Contact} {r1 : IdentifyResult} (hWF : s.WF)
    (hg : (truthy req.email || truthy req.phoneNumber) = true)
    (hm : findMatches req s = m :: ms)
    (hp : primariesOf req s = tp :: others)
    (h1 : identifyContact req now s = .success r1) :
    r1.response.primaryContactId = tp.id ∧
    (∀ x, x ∈ r1.response.emails ↔ x ≠ "" ∧
      ∃ c ∈ clusterContacts tp.id r1.store, c.email = some x) ∧
    (∀ x, x ∈ r1.response.phoneNumbers ↔ x ≠ "" ∧
      ∃ c ∈ clusterContacts tp.id r1.store, c.phoneNumber = some x) := by
  rw [identifyContact_eq_finish hg hm hp] at h1
  unfold finishIdentify at h1
  by_cases hcc : createCondB req (allContactsAfterMerge req now s tp others) = true
  · rw [if_pos hcc, postMergeStore_nextId] at h1
    have hids : ((allContactsAfterMerge req now s tp others ++
        [newSecondary req now tp.id s.nextId]).map (fun c => c.id)).Nodup := by
      rw [List.map_append]
      refine List.Nodup.append (allContactsAfterMerge_nodup_ids hWF hm hp) (by simp) ?_
      intro a ha
      rcases List.mem_map.mp ha with ⟨c, hc, hca⟩
      have hlt : c.id < s.nextId := allContactsAfterMerge_id_lt hWF hm hp c hc
      simp only [List.map_cons, List.map_nil, List.mem_singleton]
      intro heq
      have hncid : (newSecondary req now tp.id s.nextId).id = s.nextId := rfl
      rw [heq, hncid] at hca
      omega
    have htpmem : tp ∈ allContactsAfterMerge req now s tp others ++
        [newSecondary req now tp.id s.nextId] :=
      List.mem_append_left _ (tp_mem_allContactsAfterMerge hWF hm hp)
    have hfind := find?_id_eq hids htpmem rfl
    have hmemiff : ∀ z, z ∈ allContactsAfterMerge req now s tp others ++
        [newSecondary req now tp.id s.nextId] ↔
        z ∈ clusterContacts tp.id (applyOp (postMergeStore tp others now s)
          (.create (newSecondary req now tp.id s.nextId))) := by
      intro z
      rw [mem_clusterContacts]
      show _ ↔ z ∈ (postMergeStore tp others now s).contacts ++
        [newSecondary req now tp.id s.nextId] ∧ _
      constructor
      · intro hz
        rcases List.mem_append.mp hz with hz' | hz'
        · rcases (mem_allContactsAfterMerge hWF hm hp).mp hz' with ⟨hzp, hzc⟩
          exact ⟨List.mem_append_left _ hzp, hzc⟩
        · have hz'' : z = newSecondary req now tp.id s.nextId := List.mem_singleton.mp hz'
          refine ⟨List.mem_append_right _ hz', ?_⟩
          rw [hz'']
          exact ⟨rfl, Or.inr rfl⟩
      · rintro ⟨hz, hzc⟩
        rcases List.mem_append.mp hz with hz' | hz'
        · exact List.mem_append_left _
            ((mem_allContactsAfterMerge hWF hm hp).mpr ⟨hz', hzc⟩)
        · exact List.mem_append_right _ hz'
    cases hb : buildResponse tp.id (allContactsAfterMerge req now s tp others ++
        [newSecondary req now tp.id s.nextId])
        (secondaryIdsOf (allContactsAfterMerge req now s tp others ++
          [newSecondary req now tp.id s.nextId])) with
    | none =>
      rw [hb] at h1
      cases h1
    | some resp =>
      rw [hb] at h1
      cases h1
      refine ⟨buildResponse_primaryContactId hb, ?_, ?_⟩
      · intro x
        show x ∈ resp.emails ↔ _
        rw [buildResponse_mem_emails hids hfind hb x]
        constructor
        · rintro ⟨hne, c, hc, hce⟩
          exact ⟨hne, c, (hmemiff c).mp hc, hce⟩
        · rintro ⟨hne, c, hc, hce⟩
          exact ⟨hne, c, (hmemiff c).mpr hc, hce⟩
      · intro x
        show x ∈ resp.phoneNumbers ↔ _
        rw [buildResponse_mem_phones hids hfind hb x]
        constructor
        · rintro ⟨hne, c, hc, hce⟩
          exact ⟨hne, c, (hmemiff c).mp hc, hce⟩
        · rintro ⟨hne, c, hc, hce⟩
          exact ⟨hne, c, (hmemiff c).mpr hc, hce⟩
  · rw [if_neg hcc] at h1
    have hids := @allContactsAfterMerge_nodup_ids req now s m tp ms others hWF hm hp
    have htpmem := @tp_mem_allContactsAfterMerge req now s m tp ms others hWF hm hp
    have hfind := find?_id_eq hids htpmem rfl
    have hmemiff : ∀ z, z ∈ allContactsAfterMerge req now s tp others ↔
        z ∈ clusterContacts tp.id (postMergeStore tp others now s) := by
      intro z
      rw [mem_clusterContacts]
      exact mem_allContactsAfterMerge hWF hm hp
    cases hb : buildResponse tp.id (allContactsAfterMerge req now s tp others)
        (secondaryIdsOf (allContactsAfterMerge req now s tp others)) with
    | none =>
      rw [hb] at h1
      cases h1
    | some resp =>
      rw [hb] at h1
      cases h1
      refine ⟨buildResponse_primaryContactId hb, ?_, ?_⟩
      · intro x
        show x ∈ resp.emails ↔ _
        rw [buildResponse_mem_emails hids hfind hb x]
        constructor
        · rintro ⟨hne, c, hc, hce⟩
          exact ⟨hne, c, (hmemiff c).mp hc, hce⟩
        · rintro ⟨hne, c, hc, hce⟩
          exact ⟨hne, c, (hmemiff c).mpr hc, hce⟩
      · intro x
        show x ∈ resp.phoneNumbers ↔ _
        rw [buildResponse_mem_phones hids hfind hb x]
        constructor
        · rintro ⟨hne, c, hc, hce⟩
          exact ⟨hne, c, (hmemiff c).mp hc, hce⟩
        · rintro ⟨hne, c, hc, hce⟩
          exact ⟨hne, c, (hmemiff c).mpr hc, hce⟩

/-! ## The no-match path after its create -/

theorem no_match_none {req : Request} {s : Store} (hm : findMatches req s = []) :
    ∀ y ∈ s.contacts, ¬ MatchesReq req.email req.phoneNumber y := by
  unfold findMatches at hm
  rw [sortByCreatedAt_eq_nil] at hm
  intro y hy hmatch
  have hmem : y ∈ s.contacts.filter
      (fun c => decide (MatchesReq req.email req.phoneNumber c)) :=
    List.mem_filter.mpr ⟨hy, decide_eq_true hmatch⟩
  rw [hm] at hmem
  cases hmem

theorem freshPrimary_matches {req : Request} {now : Nat} {s : Store}
    (hg : (truthy req.email || truthy req.phoneNumber) = true) :
    MatchesReq req.email req.phoneNumber (freshPrimary req now s) := by
  refine ⟨rfl, ?_⟩
  cases hte : truthy req.email with
  | true => exact Or.inl ⟨rfl, rfl⟩
  | false =>
    rw [hte] at hg
    simp only [Bool.false_or] at hg
    exact Or.inr ⟨hg, rfl⟩

theorem noMatch_matches2 {req : Request} {t1 : Nat} {s : Store}
    (hg : (truthy req.email || truthy req.phoneNumber) = true)
    (hm : findMatches req s = []) :
    findMatches req (applyOp s (.create (freshPrimary req t1 s))) =
      [freshPrimary req t1 s] := by
  unfold findMatches
  show sortByCreatedAt ((s.contacts ++ [freshPrimary req t1 s]).filter _) = _
  rw [List.filter_append]
  have h1 : s.contacts.filter
      (fun c => decide (MatchesReq req.email req.phoneNumber c)) = [] :=
    List.filter_eq_nil_iff.mpr
      (fun y hy => by simpa using no_match_none hm y hy)
  have hp2 : decide (MatchesReq req.email req.phoneNumber (freshPrimary req t1 s)) = true :=
    decide_eq_true (freshPrimary_matches hg)
  have h2 : [freshPrimary req t1 s].filter
      (fun c => decide (MatchesReq req.email req.phoneNumber c)) =
      [freshPrimary req t1 s] := by
    simp [List.filter_cons, hp2]
  rw [h1, h2]
  rfl

theorem noMatch_cluster_s_excluded {req : Request} {t1 : Nat} {s : Store} (hWF : s.WF) :
    ∀ y ∈ s.contacts, ¬ InClusterOf (freshPrimary req t1 s).id y := by
  rintro y hy ⟨hylive, hcase⟩
  have hb : (freshPrimary req t1 s).id = s.nextId := rfl
  rcases hcase with h | h
  · have hlt := hWF.2.1 y hy
    rw [hb] at h
    omega
  · rw [hb] at h
    cases hyprec : y.linkPrecedence with
    | primary =>
      have := hWF.2.2.1 y hy hylive hyprec
      rw [this] at h
      cases h
    | secondary =>
      rcases hWF.2.2.2 y hy hylive hyprec with ⟨r, hr, hlink, -, -⟩
      rw [hlink] at h
      have hrid : r.id = s.nextId := Option.some_inj.mp h
      have := hWF.2.1 r hr
      omega

theorem noMatch_cluster {req : Request} {t1 : Nat} {s : Store} (hWF : s.WF) :
    clusterContacts (freshPrimary req t1 s).id (applyOp s (.create (freshPrimary req t1 s))) =
      [freshPrimary req t1 s] := by
  unfold clusterContacts
  show sortByCreatedAt ((s.contacts ++ [freshPrimary req t1 s]).filter _) = _
  rw [List.filter_append]
  have h1 : s.contacts.filter
      (fun c => decide (InClusterOf (freshPrimary req t1 s).id c)) = [] :=
    List.filter_eq_nil_iff.mpr
      (fun y hy => by simpa using noMatch_cluster_s_excluded hWF y hy)
  have hp2 : decide (InClusterOf (freshPrimary req t1 s).id (freshPrimary req t1 s)) = true :=
    decide_eq_true ⟨rfl, Or.inl rfl⟩
  have h2 : [freshPrimary req t1 s].filter
      (fun c => decide (InClusterOf (freshPrimary req t1 s).id c)) =
      [freshPrimary req t1 s] := by
    simp [List.filter_cons, hp2]
  rw [h1, h2]
  rfl

theorem noMatch_roots {req : Request} {t1 : Nat} {s : Store}
    (hg : (truthy req.email || truthy req.phoneNumber) = true)
    (hm : findMatches req s = []) :
    rootsOf (findMatches req (applyOp s (.create (freshPrimary req t1 s)))) =
      [(freshPrimary req t1 s).id] := by
  rw [noMatch_matches2 hg hm]
  unfold rootsOf
  have hroot : rootOf (freshPrimary req t1 s) = some (freshPrimary req t1 s).id := rfl
  simp [hroot]

theorem noMatch_candidates {req : Request} {t1 : Nat} {s : Store} (hWF : s.WF)
    (hg : (truthy req.email || truthy req.phoneNumber) = true)
    (hm : findMatches req s = []) :
    candidatesOf req (applyOp s (.create (freshPrimary req t1 s))) =
      clusterContacts (freshPrimary req t1 s).id
        (applyOp s (.create (freshPrimary req t1 s))) := by
  unfold candidatesOf clusterContacts
  congr 1
  apply List.filter_congr
  intro x _
  apply decide_eq_decide.mpr
  apply inClusterRoots_iff_of_all
  · intro rt hrt
    rw [noMatch_roots hg hm] at hrt
    exact List.mem_singleton.mp hrt
  · rw [noMatch_roots hg hm]
    exact List.mem_singleton.mpr rfl

theorem noMatch_primaries {req : Request} {t1 : Nat} {s : Store} (hWF : s.WF)
    (hg : (truthy req.email || truthy req.phoneNumber) = true)
    (hm : findMatches req s = []) :
    primariesOf req (applyOp s (.create (freshPrimary req t1 s))) =
      [freshPrimary req t1 s] := by
  unfold primariesOf
  rw [noMatch_candidates hWF hg hm, noMatch_cluster hWF]
  have hp2 : decide ((freshPrimary req t1 s).linkPrecedence = LinkPrecedence.primary) = true :=
    decide_eq_true rfl
  have h2 : [freshPrimary req t1 s].filter
      (fun c => decide (c.linkPrecedence = LinkPrecedence.primary)) =
      [freshPrimary req t1 s] := by
    simp [List.filter_cons, hp2]
  rw [h2]
  rfl

theorem noMatch_store_nodup_ids {req : Request} {t1 : Nat} {s : Store} (hWF : s.WF) :
    ((applyOp s (.create (freshPrimary req t1 s))).contacts.map (fun c => c.id)).Nodup := by
  show ((s.contacts ++ [freshPrimary req t1 s]).map (fun c => c.id)).Nodup
  rw [List.map_append]
  refine List.Nodup.append hWF.1 (by simp) ?_
  intro a ha
  rcases List.mem_map.mp ha with ⟨c, hc, hca⟩
  have hlt : c.id < s.nextId := hWF.2.1 c hc
  simp only [List.map_cons, List.map_nil, List.mem_singleton]
  intro heq
  have hfid : (freshPrimary req t1 s).id = s.nextId := rfl
  rw [heq, hfid] at hca
  omega

/-! ## Claim C1: idempotence -/

/-- C1 counterexample.  On a pre-state whose store contains a live secondary S
(a@x/999) still linked to a tombstoned primary (id 1) — a state externally
reachable since the core never manages `deletedAt` — plus live primaries
P (b@x/222, older) and Q (a@x/333), the call {a@x, 222} succeeds (it merges Q
under P and answers from the refreshed cluster, which excludes the dangling S).
Re-running the identical request against the produced store takes the
single-primary path with no refresh, so the dangling S is now included: the
phone set gains "999" and S's id joins `secondaryContactIds`, although no new
record is created.  The claim's "same sets of emails and phoneNumbers" fails. -/
theorem c1_idempotence_counterexample :
    respOf (identifyContact ⟨some "a@x", some "222"⟩ 10
      ⟨[⟨1, some "c@x", some "999", none, .primary, 0, 0, some 0⟩,
        ⟨2, some "a@x", some "999", some 1, .secondary, 1, 1, none⟩,
        ⟨3, some "b@x", some "222", none, .primary, 2, 2, none⟩,
        ⟨4, some "a@x", some "333", none, .primary, 3, 3, none⟩], 5⟩) =
      some { primaryContactId := 3, emails := ["b@x", "a@x"],
             phoneNumbers := ["222", "333"], secondaryContactIds := [4] } ∧
    respOf (identifyContact ⟨some "a@x", some "222"⟩ 11
      (storeOf (identifyContact ⟨some "a@x", some "222"⟩ 10
        ⟨[⟨1, some "c@x", some "999", none, .primary, 0, 0, some 0⟩,
          ⟨2, some "a@x", some "999", some 1, .secondary, 1, 1, none⟩,
          ⟨3, some "b@x", some "222", none, .primary, 2, 2, none⟩,
          ⟨4, some "a@x", some "333", none, .primary, 3, 3, none⟩], 5⟩))) =
      some { primaryContactId := 3, emails := ["b@x", "a@x"],
             phoneNumbers := ["222", "999", "333"], secondaryContactIds := [2, 4] } ∧
    "999" ∈ ["222", "999", "333"] ∧ "999" ∉ ["222", "333"] ∧
    createCount (opsOf (identifyContact ⟨some "a@x", some "222"⟩ 11
      (storeOf (identifyContact ⟨some "a@x", some "222"⟩ 10
        ⟨[⟨1, some "c@x", some "999", none, .primary, 0, 0, some 0⟩,
          ⟨2, some "a@x", some "999", some 1, .secondary, 1, 1, none⟩,
          ⟨3, some "b@x", some "222", none, .primary, 2, 2, none⟩,
          ⟨4, some "a@x", some "333", none, .primary, 3, 3, none⟩], 5⟩)))) = 0 := by
  decide

/-- C1 amended.  For a well-formed pre-state (distinct ids, ids below the
autoincrement counter, live primaries unlinked, every live secondary linked to a
live primary — the spec's own forest invariants, which rule out dangling
secondaries of tombstoned primaries), immediately re-running a successful call
with identical inputs succeeds, returns the same `primaryContactId` and the same
sets of emails and phone numbers, commits no write at all (in particular
creates no record), and leaves the store unchanged. -/
theorem c1_idempotent_of_wf (req : Request) (t1 t2 : Nat) (s : Store) (hWF : s.WF)
    (r1 : IdentifyResult) (h1 : identifyContact req t1 s = .success r1) :
    ∃ r2, identifyContact req t2 r1.store = .success r2 ∧
      r2.response.primaryContactId = r1.response.primaryContactId ∧
      (∀ x, x ∈ r2.response.emails ↔ x ∈ r1.response.emails) ∧
      (∀ x, x ∈ r2.response.phoneNumbers ↔ x ∈ r1.response.phoneNumbers) ∧
      r2.ops = [] ∧ r2.store = r1.store := by
  cases hg : (truthy req.email || truthy req.phoneNumber) with
  | false =>
    rw [identifyContact_guard_fail hg] at h1
    cases h1
  | true =>
    cases hm : findMatches req s with
    | nil =>
      rw [identifyContact_noMatch hg hm] at h1
      cases h1
      obtain ⟨resp2, hrun2, hpid2, hem2, hph2⟩ :=
        @second_run req t2 (applyOp s (.create (freshPrimary req t1 s)))
        (freshPrimary req t1 s)
        (noMatch_store_nodup_ids hWF) hg
        (by rw [noMatch_matches2 hg hm]; exact List.cons_ne_nil _ _)
        (noMatch_primaries hWF hg hm)
        (noMatch_candidates hWF hg hm)
        (fun _ => ⟨freshPrimary req t1 s,
          by rw [noMatch_cluster hWF]; exact List.mem_singleton.mpr rfl, rfl⟩)
        (fun _ => ⟨freshPrimary req t1 s,
          by rw [noMatch_cluster hWF]; exact List.mem_singleton.mpr rfl, rfl⟩)
        (by rw [noMatch_cluster hWF]; exact List.mem_singleton.mpr rfl)
      refine ⟨⟨applyOp s (.create (freshPrimary req t1 s)), resp2, []⟩,
        hrun2, ?_, ?_, ?_, rfl, rfl⟩
      · show resp2.primaryContactId = s.nextId
        rw [hpid2]
        rfl
      · intro x
        show x ∈ resp2.emails ↔ x ∈ valsOf req.email
        rw [hem2 x, noMatch_cluster hWF, mem_valsOf]
        constructor
        · rintro ⟨hne, c, hc, hce⟩
          have hcf : c = freshPrimary req t1 s := List.mem_singleton.mp hc
          rw [hcf] at hce
          exact ⟨hce, hne⟩
        · rintro ⟨he, hne⟩
          exact ⟨hne, freshPrimary req t1 s, List.mem_singleton.mpr rfl, he⟩
      · intro x
        show x ∈ resp2.phoneNumbers ↔ x ∈ valsOf req.phoneNumber
        rw [hph2 x, noMatch_cluster hWF, mem_valsOf]
        constructor
        · rintro ⟨hne, c, hc, hce⟩
          have hcf : c = freshPrimary req t1 s := List.mem_singleton.mp hc
          rw [hcf] at hce
          exact ⟨hce, hne⟩
        · rintro ⟨he, hne⟩
          exact ⟨hne, freshPrimary req t1 s, List.mem_singleton.mpr rfl, he⟩
    | cons m ms =>
      cases hp : primariesOf req s with
      | nil =>
        rw [identifyContact_zero_primaries hg hm hp] at h1
        cases h1
      | cons tp others =>
        have hstore : r1.store = storeOf (identifyContact req t1 s) := by
          rw [h1]
          rfl
        obtain ⟨resp2, hrun2, hpid2, hem2, hph2⟩ :=
          @second_run req t2 (storeOf (identifyContact req t1 s)) tp
          (store_nodup_ids hWF hg hm hp) hg (matches2_ne_nil hWF hg hm hp)
          (primaries2_eq hWF hg hm hp) (candidates2_eq_cluster hWF hg hm hp)
          (cluster2_has_email hWF hg hm hp) (cluster2_has_phone hWF hg hm hp)
          (tp_mem_cluster2 hWF hg hm hp)
        obtain ⟨hpid1, hem1, hph1⟩ := response1_sets hWF hg hm hp h1
        refine ⟨⟨storeOf (identifyContact req t1 s), resp2, []⟩, ?_, ?_, ?_, ?_, rfl, ?_⟩
        · rw [hstore]
          exact hrun2
        · show resp2.primaryContactId = r1.response.primaryContactId
          rw [hpid2, hpid1]
        · intro x
          show x ∈ resp2.emails ↔ x ∈ r1.response.emails
          rw [hem2 x, hem1 x, hstore]
        · intro x
          show x ∈ resp2.phoneNumbers ↔ x ∈ r1.response.phoneNumbers
          rw [hph2 x, hph1 x, hstore]
        · show storeOf (identifyContact req t1 s) = r1.store
          rw [hstore]

/-- Witness for the amended C1: a single-field repeat call on a well-formed
one-contact store. -/
theorem c1_idempotent_of_wf_witness :
    (⟨[⟨1, some "a@x", some "111", none, .primary, 0, 0, none⟩], 2⟩ : Store).WF ∧
    identifyContact ⟨some "a@x", some "111"⟩ 5
        ⟨[⟨1, some "a@x", some "111", none, .primary, 0, 0, none⟩], 2⟩ =
      .success ⟨⟨[⟨1, some "a@x", some "111", none, .primary, 0, 0, none⟩], 2⟩,
        { primaryContactId := 1, emails := ["a@x"], phoneNumbers := ["111"],
          secondaryContactIds := [] }, []⟩ ∧
    (∃ r2, identifyContact ⟨some "a@x", some "111"⟩ 6
        ⟨[⟨1, some "a@x", some "111", none, .primary, 0, 0, none⟩], 2⟩ = .success r2 ∧
      r2.response.primaryContactId = 1 ∧
      (∀ x, x ∈ r2.response.emails ↔ x ∈ ["a@x"]) ∧
      (∀ x, x ∈ r2.response.phoneNumbers ↔ x ∈ ["111"]) ∧
      r2.ops = [] ∧
      r2.store = ⟨[⟨1, some "a@x", some "111", none, .primary, 0, 0, none⟩], 2⟩) :=
  ⟨by decide, by decide,
    c1_idempotent_of_wf ⟨some "a@x", some "111"⟩ 5 6
      ⟨[⟨1, some "a@x", some "111", none, .primary, 0, 0, none⟩], 2⟩ (by decide)
      ⟨⟨[⟨1, some "a@x", some "111", none, .primary, 0, 0, none⟩], 2⟩,
        { primaryContactId := 1, emails := ["a@x"], phoneNumbers := ["111"],
          secondaryContactIds := [] }, []⟩ (by decide)⟩

end Bitespeed
